import Mathlib

/-!
# Catalog Extensions: verification of the DOM annotation and filter-state engine

Shallow embedding of the catalog_extensions scripts:

* `product_offers.js`, `consumer_discount.js` and the badges script
  (per-card overlay injection into an externally owned DOM);
* the quantity-control overlay script (per-card stepper state machine
  synchronized with the cart-update endpoint);
* `catalog_facets.js` (facet selection codec over the `field_filters`
  URL parameter, the price slider, and the price-ceiling computation).

The DOM is modelled as a finitely branching tree of elements carrying a
tag name and a list of CSS classes.  Text content, inline SVG geometry
and styling are elided: no invariant under verification depends on them.
-/

namespace CatalogExt

mutual

/-- A DOM element tree: tag name, class list, and child elements.
`DomForest` is the (mutually inductive) list of children, which keeps
all recursions structural. -/
inductive Dom : Type where
  | node (tag : String) (classes : List String) (children : DomForest)

/-- A sequence of sibling DOM elements. -/
inductive DomForest : Type where
  | nil : DomForest
  | cons (d : Dom) (ds : DomForest) : DomForest

end

deriving instance DecidableEq for Dom, DomForest

/-- Tag name of an element. -/
def Dom.tagOf : Dom → String
  | .node t _ _ => t

/-- Class list of an element. -/
def Dom.classesOf : Dom → List String
  | .node _ cls _ => cls

/-- Children of an element. -/
def Dom.childrenOf : Dom → DomForest
  | .node _ _ ds => ds

/-- Build a `DomForest` from a list of elements. -/
def DomForest.ofList : List Dom → DomForest
  | [] => .nil
  | d :: ds => .cons d (DomForest.ofList ds)

mutual

/-- Does `p` hold of this element or of any descendant? -/
def anyNodeS (p : Dom → Bool) : Dom → Bool
  | .node t cls ds => p (.node t cls ds) || anyNodeF p ds

/-- Does `p` hold of any element in the forest (roots included)? -/
def anyNodeF (p : Dom → Bool) : DomForest → Bool
  | .nil => false
  | .cons d ds => anyNodeS p d || anyNodeF p ds

end

mutual

/-- Number of elements in the tree (root included) satisfying `p`. -/
def countNodeS (p : Dom → Bool) : Dom → Nat
  | .node t cls ds => (if p (.node t cls ds) then 1 else 0) + countNodeF p ds

/-- Number of elements in the forest satisfying `p`. -/
def countNodeF (p : Dom → Bool) : DomForest → Nat
  | .nil => 0
  | .cons d ds => countNodeS p d + countNodeF p ds

end

/-- Root-level test for a CSS class, the building block of the
`querySelector('.cls')` calls in the scripts. -/
def hasCls (c : String) (d : Dom) : Bool := d.classesOf.contains c

/-- `container.querySelector('.c') !== null`, i.e. some strict
descendant of `d` carries class `c` (querySelector never returns the
context element itself). -/
def selClass (c : String) (d : Dom) : Bool := anyNodeF (hasCls c) d.childrenOf

mutual

/-- Insert `n` directly after the first element (in document order)
satisfying `p`, inside the subtree of `d`; the Bool reports whether an
anchor was found.  This models
`anchor.parentNode.insertBefore(n, anchor.nextSibling)` together with
the `appendChild` fallback when the anchor is the last sibling. -/
def insertAfterS (p : Dom → Bool) (n : Dom) : Dom → Dom × Bool
  | .node t cls ds =>
    let r := insertAfterF p n ds
    (.node t cls r.1, r.2)

/-- Forest version of `insertAfterS`. -/
def insertAfterF (p : Dom → Bool) (n : Dom) : DomForest → DomForest × Bool
  | .nil => (.nil, false)
  | .cons d ds =>
    if p d then (.cons d (.cons n ds), true)
    else
      let r := insertAfterS p n d
      if r.2 then (.cons r.1 ds, true)
      else
        let r2 := insertAfterF p n ds
        (.cons d r2.1, r2.2)

end

mutual

/-- Apply `f` to the first element (in document order) satisfying `p`
inside the subtree of `d`; the Bool reports whether a match was found. -/
def mapFirstS (p : Dom → Bool) (f : Dom → Dom) : Dom → Dom × Bool
  | .node t cls ds =>
    let r := mapFirstF p f ds
    (.node t cls r.1, r.2)

/-- Forest version of `mapFirstS`. -/
def mapFirstF (p : Dom → Bool) (f : Dom → Dom) : DomForest → DomForest × Bool
  | .nil => (.nil, false)
  | .cons d ds =>
    if p d then (.cons (f d) ds, true)
    else
      let r := mapFirstS p f d
      if r.2 then (.cons r.1 ds, true)
      else
        let r2 := mapFirstF p f ds
        (.cons d r2.1, r2.2)

end

mutual

/-- Pre-order flattening of a tree to the list of its elements'
(tag, classes) pairs; used to state that injection never removes or
reorders externally owned nodes. -/
def flattenS : Dom → List (String × List String)
  | .node t cls ds => (t, cls) :: flattenF ds

/-- Pre-order flattening of a forest. -/
def flattenF : DomForest → List (String × List String)
  | .nil => []
  | .cons d ds => flattenS d ++ flattenF ds

end

/-! ## Overlay injection, one function per annotation kind

Each function is the per-card body of the corresponding `sync` pass
(`injectProductOffers`, `injectConsumerDiscount`, `injectBadges`),
i.e. what the script does to one card element once the batched fetch
has returned that card's payload. -/

/-- One offer record from `get_item_offers`: title plus optional
subtitle. -/
structure Offer where
  offer_title : String
  offer_subtitle : Option String
  deriving DecidableEq

/-- One badge record from `get_item_badges`. -/
structure Badge where
  badge_type : String
  deriving DecidableEq

/-- The heading block of the offers overlay (`offers-heading mb-2`,
with its icon span and bold label). -/
def offersHeading : Dom :=
  .node "div" ["offers-heading", "mb-2"]
    (.cons (.node "span" ["mr-1", "tag-icon"] (.cons (.node "svg" ["icon", "icon-lg"] .nil) .nil))
      (.cons (.node "b" [] .nil) .nil))

/-- One offer line (`mt-2 d-flex`): icon column plus text paragraph. -/
def offerLine (_o : Offer) : Dom :=
  .node "div" ["mt-2", "d-flex"]
    (.cons (.node "div" ["mr-2"] (.cons (.node "svg" [] .nil) .nil))
      (.cons (.node "p" ["mr-1", "mb-1"] .nil) .nil))

/-- The wrapper subtree built by `injectProductOffers` for one card:
a `mt-2` div holding the heading, the (empty) `offer-container` marker
div, and the list of offer lines. -/
def offerWrapper (offers : List Offer) : Dom :=
  .node "div" ["mt-2"]
    (.cons offersHeading
      (.cons (.node "div" ["offer-container"] .nil)
        (.cons (.node "div" [] (DomForest.ofList (offers.map offerLine))) .nil)))

/-- Per-card body of `injectProductOffers`: skip when the payload is
empty, skip when an `.offer-container` overlay already exists under the
card, skip when no `.product-price` anchor is found, otherwise insert
the wrapper directly after the price element. -/
def injectOffersCard (offers : List Offer) (card : Dom) : Dom :=
  if offers.isEmpty then card
  else if selClass "offer-container" card then card
  else
    let r := insertAfterS (hasCls "product-price") (offerWrapper offers) card
    if r.2 then r.1 else card

/-- The `customer-discount-info` node built by `injectConsumerDiscount`
(its text content `Consumer Offer: d%` is elided). -/
def discountInfoNode : Dom := .node "div" ["customer-discount-info"] .nil

/-- Per-card body of `injectConsumerDiscount`: skip when the discount is
absent or `0` (JavaScript falsiness of the payload value), skip when no
`.product-price` anchor exists, skip when a `.customer-discount-info`
overlay already exists under the card, otherwise insert the info node
directly after the price element. -/
def injectDiscountCard (discount : Option ℚ) (card : Dom) : Dom :=
  match discount with
  | none => card
  | some q =>
    if q = 0 then card
    else if ¬ selClass "product-price" card then card
    else if selClass "customer-discount-info" card then card
    else (insertAfterS (hasCls "product-price") discountInfoNode card).1

/-- Lower-case an ASCII string (models `String.prototype.toLowerCase`
on the ASCII badge labels). -/
def jsToLower (s : String) : String := String.map Char.toLower s

/-- Is a character in `[a-z0-9]` (the characters the badge slug regex
keeps)? -/
def isSlugChar (c : Char) : Bool := (('a' ≤ c) && (c ≤ 'z')) || (('0' ≤ c) && (c ≤ '9'))

/-- Collapse every maximal run of non-`[a-z0-9]` characters into one
dash: the `replace(/[^a-z0-9]+/g, "-")` step of the badge slug.  The
Bool accumulator records whether the previous character already emitted
a dash (i.e. we are inside a run). -/
def collapseAux : Bool → List Char → List Char
  | _, [] => []
  | inRun, c :: cs =>
    if isSlugChar c then c :: collapseAux false cs
    else if inRun then collapseAux true cs
    else '-' :: collapseAux true cs

/-- Collapse runs, starting outside a run. -/
def collapseRuns (l : List Char) : List Char := collapseAux false l

/-- Badge slug: lower-case, then collapse non-alphanumeric runs. -/
def slugify (s : String) : String := String.mk (collapseRuns (jsToLower s).data)

/-- One badge span: classes `ce-badge` and `ce-badge-<slug>`. -/
def badgeSpan (b : Badge) : Dom :=
  .node "span" ["ce-badge", "ce-badge-" ++ slugify b.badge_type] .nil

/-- The `ce-badges` container div holding one span per badge. -/
def badgesContainer (bs : List Badge) : Dom :=
  .node "div" ["ce-badges"] (DomForest.ofList (bs.map badgeSpan))

/-- Anchor predicate for the badge overlay's second selector
`querySelector("a, h4, h5")`. -/
def isTitleTag (d : Dom) : Bool := d.tagOf == "a" || d.tagOf == "h4" || d.tagOf == "h5"

/-- Injection into the resolved card body (`injectBadges` after
`cardBody` has been determined): skip when a `.ce-badges` overlay
already exists under the body; otherwise insert the container directly
after the `.product-title` element, falling back to the first
`a`/`h4`/`h5` element, and finally to prepending at the top of the
body (`insertBefore(container, cardBody.firstChild)`). -/
def injectBody (bs : List Badge) (body : Dom) : Dom :=
  if selClass "ce-badges" body then body
  else
    let r := insertAfterS (hasCls "product-title") (badgesContainer bs) body
    if r.2 then r.1
    else
      let r2 := insertAfterS isTitleTag (badgesContainer bs) body
      if r2.2 then r2.1
      else .node body.tagOf body.classesOf (.cons (badgesContainer bs) body.childrenOf)

/-- Per-card body of `injectBadges`: skip when the badge list is empty;
resolve `cardBody` as the first `.card-body` descendant, defaulting to
the card itself; then inject into that body. -/
def injectBadgesCard (bs : List Badge) (card : Dom) : Dom :=
  if bs.isEmpty then card
  else
    let r := mapFirstS (hasCls "card-body") (injectBody bs) card
    if r.2 then r.1 else injectBody bs card

/-! ## Trigger policy per annotation kind

Transcription of the top-level scheduling code of each script: the
`setTimeout` delays registered at load, and the debounce quiet period
of the `MutationObserver` callback when the script installs one. -/

/-- The sync trigger schedule of one annotation script: the list of
`setTimeout` delays (ms) registered at page load, and the debounce
delay of its mutation-observer callback, when present. -/
structure TriggerPolicy where
  delays : List Nat
  observerDebounce : Option Nat
  deriving DecidableEq

/-- `product_offers.js`: a single `setTimeout(injectProductOffers, 600)`
and no observer. -/
def offersTriggers : TriggerPolicy := { delays := [600], observerDebounce := none }

/-- `consumer_discount.js`: a single
`setTimeout(injectConsumerDiscount, 500)` and no observer. -/
def discountTriggers : TriggerPolicy := { delays := [500], observerDebounce := none }

/-- Badges script: `setTimeout` at 600, 1500 and 3000 ms, plus a
`MutationObserver` whose callback re-arms a 400 ms timer. -/
def badgesTriggers : TriggerPolicy := { delays := [600, 1500, 3000], observerDebounce := some 400 }

/-- Number of times the debounced observer callback actually fires
`sync`, given the (ascending) times of the observed mutation events: a
pending timer is cleared whenever the next event arrives within the
quiet period `q`, so one fire happens per gap of at least `q`, plus the
final fire. -/
def debounceFires (q : Nat) : List Nat → Nat
  | [] => 0
  | [_] => 1
  | t₁ :: t₂ :: ts => (if q ≤ t₂ - t₁ then 1 else 0) + debounceFires q (t₂ :: ts)

/-! ## Quantity control overlay

State machine of the listing quantity script, per card.  The DOM class
toggles of the script are captured as explicit Booleans; the shown
quantity is the numeric content of the `.cart-qty` input.  The field
`lastConfirmed` is a ghost variable recording the quantity most
recently acknowledged by a successful `update_cart` call: the script
itself keeps no such variable, it is the reference value the spec's
invariant speaks about. -/

structure QtyState where
  /-- Is the `.listing-qty-wrapper` element present under the card? -/
  wrapperPresent : Bool
  /-- Does the wrapper carry the `hidden` class? -/
  wrapperHidden : Bool
  /-- Numeric content of the `.cart-qty` input. -/
  inputValue : Nat
  /-- Does the `.btn-add-to-cart-list` button carry the `hidden` class? -/
  addBtnHidden : Bool
  /-- Ghost: last quantity confirmed by a successful cart update. -/
  lastConfirmed : Option Nat
  deriving DecidableEq

/-- A card before this script has touched it: no wrapper, add-to-cart
button visible. -/
def initialQtyState : QtyState :=
  { wrapperPresent := false, wrapperHidden := false, inputValue := 0
    addBtnHidden := false, lastConfirmed := none }

/-- Response of the `update_cart` endpoint as seen by the callback:
`exc` is the error flag (`r.exc`). -/
structure CartResp where
  exc : Bool
  deriving DecidableEq

/-- `renderQtyControls(card, itemCode, initialQty)`: if a wrapper for
this item already exists, unhide it and overwrite the input with
`initialQty` when one was passed; otherwise create the wrapper (input
prefilled with `initialQty`, defaulting to 1) and hide the add-to-cart
button. -/
def renderQtyControls (s : QtyState) (initialQty : Option Nat) : QtyState :=
  if s.wrapperPresent then
    { s with
      wrapperHidden := false
      inputValue := match initialQty with | some q => q | none => s.inputValue }
  else
    { s with
      wrapperPresent := true
      wrapperHidden := false
      inputValue := initialQty.getD 1
      addBtnHidden := true }

/-- The callback of `updateQty(card, itemCode, newQty)` applied to the
response `r`: on `r && r.exc` return without touching the UI; otherwise
confirm `newQty` and update the UI — at quantity 0 hide the wrapper,
zero the input and restore the add-to-cart button, else write the new
quantity into the input.  The script clamps `newQty` at 0 before the
call, hence the `Nat` argument. -/
def updateQtyCallback (s : QtyState) (newQty : Nat) (r : Option CartResp) : QtyState :=
  if (match r with | some resp => resp.exc | none => false) then s
  else
    let s₁ :=
      match r with
      | some _ => { s with lastConfirmed := some newQty }
      | none => s
    if ¬ s₁.wrapperPresent then s₁
    else if newQty = 0 then
      { s₁ with wrapperHidden := true, inputValue := 0, addBtnHidden := false }
    else { s₁ with inputValue := newQty }

/-- `parseInt` of the input with the script's guard
`if (isNaN(current) || current < 1) current = 1`. -/
def currentQty (s : QtyState) : Nat := max s.inputValue 1

/-- Click on the `+` stepper button: `updateQty(card, code, current+1)`
answered by `r`. -/
def clickPlus (s : QtyState) (r : Option CartResp) : QtyState :=
  updateQtyCallback s (currentQty s + 1) r

/-- Click on the `−` stepper button: `updateQty(card, code, current-1)`
(clamped at 0) answered by `r`. -/
def clickMinus (s : QtyState) (r : Option CartResp) : QtyState :=
  updateQtyCallback s (currentQty s - 1) r

/-- Click on the external add-to-cart button: ignored for guests;
otherwise hide the button at once and, after the 200 ms delay, render
the controls with quantity 1. -/
def addToCartClick (guest : Bool) (s : QtyState) : QtyState :=
  if guest then s
  else renderQtyControls { s with addBtnHidden := true } (some 1)

/-- One card's step of `syncExistingInCartCards`: a visible
`cart-indicator` (or visible `go-to-cart-grid` button) makes the script
call `renderQtyControls(card, code, 1)`. -/
def indicatorSync (s : QtyState) : QtyState :=
  renderQtyControls s (some 1)

/-! ## Price slider (catalog_facets.js)

State of the dual-handle continuous slider: the two range inputs and
the two numeric input boxes.  Values are rationals (JavaScript numbers
on the non-NaN paths the script guards). -/

structure SliderState where
  minSlider : ℚ
  maxSlider : ℚ
  minInput : ℚ
  maxInput : ℚ
  deriving DecidableEq

/-- `enforceOrderContinuous`: read both handles, swap when
`min > max`, then mirror both numeric inputs from the handles. -/
def enforceOrderContinuous (s : SliderState) : SliderState :=
  let minV := s.minSlider
  let maxV := s.maxSlider
  let p := if minV > maxV then (maxV, minV) else (minV, maxV)
  { minSlider := p.1, maxSlider := p.2, minInput := p.1, maxInput := p.2 }

/-- Assigning `v` to a range input clamps it into `[0, maxPrice]`
(the `min`/`max` attributes the script renders). -/
def setRangeValue (maxPrice v : ℚ) : ℚ := max 0 (min v maxPrice)

/-- `change` handler of the min numeric box: bail out when the text
does not parse (`isNaN`), else write the parsed value to the min
handle and enforce order. -/
def minInputChange (maxPrice : ℚ) (s : SliderState) (v : Option ℚ) : SliderState :=
  match v with
  | none => s
  | some q => enforceOrderContinuous { s with minSlider := setRangeValue maxPrice q }

/-- `change` handler of the max numeric box. -/
def maxInputChange (maxPrice : ℚ) (s : SliderState) (v : Option ℚ) : SliderState :=
  match v with
  | none => s
  | some q => enforceOrderContinuous { s with maxSlider := setRangeValue maxPrice q }

/-! ## Price ceiling (renderPriceRanges) -/

/-- A `Catalog Price Range` row as the facet payload delivers it:
`to_amount` is `none` when the field is absent or not a number (the
script filters on `typeof v === "number" && !isNaN(v)`). -/
structure PriceRange where
  to_amount : Option ℚ
  deriving DecidableEq

/-- Dynamic upper bound of the price slider: 100000 when no numeric
`to_amount` is configured, otherwise the maximum `to_amount` rounded up
to the nearest thousand (`Math.ceil(rawMax / 1000) * 1000`). -/
def computeMaxPrice (ranges : List PriceRange) : ℚ :=
  match ranges.filterMap (fun r => r.to_amount) with
  | [] => 100000
  | v :: vs => 1000 * ((⌈(vs.foldl max v) / 1000⌉ : ℤ) : ℚ)

/-! ## Facet state codec (catalog_facets.js)

`FacetSelectionState` as the scripts keep it inside the parsed
`field_filters` object: an insertion-ordered association list from
filter name to list of string values (JavaScript objects preserve
insertion order; keys are unique). -/

abbrev FacetState := List (String × List String)

/-- Property lookup on a JavaScript-object association list. -/
def lookupKey {α : Type} : List (String × α) → String → Option α
  | [], _ => none
  | (k, v) :: rest, name => if k = name then some v else lookupKey rest name

/-- Property assignment: overwrite in place when the key exists,
append at the end otherwise (JavaScript object insertion order). -/
def setKey {α : Type} : List (String × α) → String → α → List (String × α)
  | [], name, v => [(name, v)]
  | (k, w) :: rest, name, v =>
    if k = name then (name, v) :: rest else (k, w) :: setKey rest name v

/-- The `delete fieldFilters[name]` operation. -/
def eraseKey {α : Type} : List (String × α) → String → List (String × α)
  | [], _ => []
  | (k, w) :: rest, name =>
    if k = name then eraseKey rest name else (k, w) :: eraseKey rest name

/-- `Array.isArray(fieldFilters[name]) ? fieldFilters[name].map(String) : []`
for the string-valued states this path writes. -/
def lookupList (st : FacetState) (name : String) : List String :=
  (lookupKey st name).getD []

/-- The state-transforming core of `applyFieldFilterChange`: push the
stringified value when checked and absent, filter it out when
unchecked, then store the list back, deleting the key when the list
became empty. -/
def toggleValue (st : FacetState) (name v : String) (included : Bool) : FacetState :=
  let existing := lookupList st name
  let next :=
    if included then (if v ∈ existing then existing else existing ++ [v])
    else existing.filter (fun x => x ≠ v)
  if next.isEmpty then eraseKey st name else setKey st name next

/-! ### JSON fragment codec

`JSON.stringify` of a `{name: [string, ...]}` object and the matching
restriction of `JSON.parse`, both over `List Char`.  The parser accepts
exactly the whitespace-free form the serializer emits (the only form
this system ever writes into the URL); every other input is treated as
unparseable, which the read path turns into the empty state. -/

/-- Lower-case hex digit for `0 ≤ n < 16`. -/
def hexDigitChar (n : Nat) : Char :=
  if n < 10 then Char.ofNat (48 + n) else Char.ofNat (87 + n)

/-- `JSON.stringify` escaping of one character: `"` and `\` get a
backslash, the named control escapes are used where they exist, the
remaining control characters become `\u00XX`, and everything else is
emitted literally. -/
def escapeChar (c : Char) : List Char :=
  if c = '"' then ['\\', '"']
  else if c = '\\' then ['\\', '\\']
  else if c = Char.ofNat 8 then ['\\', 'b']
  else if c = Char.ofNat 9 then ['\\', 't']
  else if c = Char.ofNat 10 then ['\\', 'n']
  else if c = Char.ofNat 12 then ['\\', 'f']
  else if c = Char.ofNat 13 then ['\\', 'r']
  else if c.toNat < 32 then
    ['\\', 'u', '0', '0', hexDigitChar (c.toNat / 16), hexDigitChar (c.toNat % 16)]
  else [c]

/-- Escape a character sequence. -/
def escapeList : List Char → List Char
  | [] => []
  | c :: cs => escapeChar c ++ escapeList cs

/-- A JSON string literal. -/
def jstrChars (s : String) : List Char := '"' :: (escapeList s.data ++ ['"'])

/-- Comma-separated string literals followed by the closing bracket
(non-empty arrays). -/
def encodeItems : List String → List Char
  | [] => [']']
  | [v] => jstrChars v ++ [']']
  | v :: vs => jstrChars v ++ (',' :: encodeItems vs)

/-- A JSON array of strings. -/
def encodeArray (vs : List String) : List Char :=
  match vs with
  | [] => ['[', ']']
  | _ => '[' :: encodeItems vs

/-- Comma-separated `"key":[...]` members followed by the closing
brace (non-empty objects). -/
def encodeMembers : List (String × List String) → List Char
  | [] => ['}']
  | [(k, vs)] => jstrChars k ++ (':' :: (encodeArray vs ++ ['}']))
  | (k, vs) :: rest => jstrChars k ++ (':' :: (encodeArray vs ++ (',' :: encodeMembers rest)))

/-- `JSON.stringify` of the state object. -/
def encodeObj (st : FacetState) : List Char :=
  match st with
  | [] => ['{', '}']
  | _ => '{' :: encodeMembers st

/-- The write path of `applyFieldFilterChange` for the `field_filters`
URL parameter: serialize a non-empty mapping, delete the parameter for
the empty mapping (`search.delete("field_filters")`). -/
def encodeFieldFilters (st : FacetState) : Option (List Char) :=
  if st.isEmpty then none else some (encodeObj st)

/-- Value of a hex digit, either case. -/
def hexVal (c : Char) : Option Nat :=
  if ('0' ≤ c) ∧ (c ≤ '9') then some (c.toNat - 48)
  else if ('a' ≤ c) ∧ (c ≤ 'f') then some (c.toNat - 87)
  else if ('A' ≤ c) ∧ (c ≤ 'F') then some (c.toNat - 55)
  else none

/-- Body of a JSON string literal, after the opening quote: returns the
decoded characters and the remaining input.  Unescaped control
characters are rejected, as `JSON.parse` rejects them. -/
def parseJStringBody : List Char → Option (List Char × List Char)
  | [] => none
  | c :: cs =>
    if c = '"' then some ([], cs)
    else if c = '\\' then
      match cs with
      | [] => none
      | e :: cs₂ =>
        if e = '"' then (parseJStringBody cs₂).map (fun p => ('"' :: p.1, p.2))
        else if e = '\\' then (parseJStringBody cs₂).map (fun p => ('\\' :: p.1, p.2))
        else if e = '/' then (parseJStringBody cs₂).map (fun p => ('/' :: p.1, p.2))
        else if e = 'b' then (parseJStringBody cs₂).map (fun p => (Char.ofNat 8 :: p.1, p.2))
        else if e = 't' then (parseJStringBody cs₂).map (fun p => (Char.ofNat 9 :: p.1, p.2))
        else if e = 'n' then (parseJStringBody cs₂).map (fun p => (Char.ofNat 10 :: p.1, p.2))
        else if e = 'f' then (parseJStringBody cs₂).map (fun p => (Char.ofNat 12 :: p.1, p.2))
        else if e = 'r' then (parseJStringBody cs₂).map (fun p => (Char.ofNat 13 :: p.1, p.2))
        else if e = 'u' then
          match cs₂ with
          | h₁ :: h₂ :: h₃ :: h₄ :: cs₃ =>
            match hexVal h₁, hexVal h₂, hexVal h₃, hexVal h₄ with
            | some a, some b, some x, some y =>
              (parseJStringBody cs₃).map
                (fun p => (Char.ofNat (((a * 16 + b) * 16 + x) * 16 + y) :: p.1, p.2))
            | _, _, _, _ => none
          | _ => none
        else none
    else if c.toNat < 32 then none
    else (parseJStringBody cs).map (fun p => (c :: p.1, p.2))

/-- Items of a string array after the opening bracket of a non-empty
array: `"v"` separated by commas, ended by `]`.  Fuel bounds the item
count; callers pass the input length. -/
def parseItems : Nat → List Char → Option (List String × List Char)
  | 0, _ => none
  | fuel + 1, cs =>
    match cs with
    | '"' :: cs₁ =>
      match parseJStringBody cs₁ with
      | none => none
      | some (sdata, rest) =>
        match rest with
        | ',' :: rest₂ =>
          match parseItems fuel rest₂ with
          | some (vs, rest₃) => some (String.mk sdata :: vs, rest₃)
          | none => none
        | ']' :: rest₂ => some ([String.mk sdata], rest₂)
        | _ => none
    | _ => none

/-- A JSON array of strings. -/
def parseArray (cs : List Char) : Option (List String × List Char) :=
  match cs with
  | '[' :: ']' :: rest => some ([], rest)
  | '[' :: cs₁ => parseItems cs₁.length cs₁
  | _ => none

/-- Members of a non-empty object after the opening brace:
`"key":[...]` separated by commas, ended by `}`. -/
def parseMembers : Nat → List Char → Option (FacetState × List Char)
  | 0, _ => none
  | fuel + 1, cs =>
    match cs with
    | '"' :: cs₁ =>
      match parseJStringBody cs₁ with
      | none => none
      | some (kdata, rest) =>
        match rest with
        | ':' :: rest₁ =>
          match parseArray rest₁ with
          | none => none
          | some (vs, rest₂) =>
            match rest₂ with
            | ',' :: rest₃ =>
              (parseMembers fuel rest₃).map (fun p => ((String.mk kdata, vs) :: p.1, p.2))
            | '}' :: rest₃ => some ([(String.mk kdata, vs)], rest₃)
            | _ => none
        | _ => none
    | _ => none

/-- The `{name: [string, ...]}` restriction of `JSON.parse`. -/
def parseObj (cs : List Char) : Option (FacetState × List Char) :=
  match cs with
  | '{' :: '}' :: rest => some ([], rest)
  | '{' :: cs₁ => parseMembers cs₁.length cs₁
  | _ => none

/-- The read path for the `field_filters` URL parameter: an absent
parameter, a parse failure, or trailing garbage all decode to the
empty mapping (the scripts' `try/catch` fallback). -/
def decodeFieldFilters (p : Option (List Char)) : FacetState :=
  match p with
  | none => []
  | some cs =>
    match parseObj cs with
    | some (st, []) => st
    | _ => []

/-! ## Price filter write path at the JSON value level (C8)

`applyPriceFilter` stores `fieldFilters.price_from = [fromValue]` with
`fromValue` a number, unlike the checkbox path which stringifies.  To
state this, the decoded object is modelled with typed JSON values. -/

/-- A JSON scalar inside a `field_filters` array: string or number. -/
inductive JVal : Type where
  | jstr (s : String)
  | jnum (q : ℚ)
  deriving DecidableEq

/-- Is this JSON value a string? -/
def JVal.isStr : JVal → Bool
  | .jstr _ => true
  | .jnum _ => false

/-- The decoded `field_filters` object with typed values. -/
abbrev ValState := List (String × List JVal)

/-- Value-level transcription of `applyPriceFilter`'s object update:
`price_from` receives the raw numeric `fromValue` as a singleton array
(deleted when absent/NaN), then `price_to` likewise. -/
def applyPriceFilterVals (fromV toV : Option ℚ) (st : ValState) : ValState :=
  let st₁ :=
    match fromV with
    | some q => setKey st "price_from" [JVal.jnum q]
    | none => eraseKey st "price_from"
  match toV with
  | some q => setKey st₁ "price_to" [JVal.jnum q]
  | none => eraseKey st₁ "price_to"

/-! ## Auxiliary definitions used by the claim statements -/

/-- The trigger policy the spec ascribes to every annotation kind: an
initial delay followed by at least one further, strictly increasing
fallback delay, plus a debounced mutation observer. -/
def specTriggerPolicy (p : TriggerPolicy) : Prop :=
  2 ≤ p.delays.length ∧ p.delays.Chain' (· < ·) ∧ p.observerDebounce.isSome = true

/-- Consistency of the price-slider widget after enforcement: ordered
handles mirrored into both numeric boxes. -/
def sliderConsistent (s : SliderState) : Prop :=
  s.minSlider ≤ s.maxSlider ∧ s.minInput = s.minSlider ∧ s.maxInput = s.maxSlider

/-- Event trace for the quantity overlay: the user adds the item to the
cart, increments twice (both confirmed by the backend), then an
externally triggered re-render makes `syncExistingInCartCards` see the
visible in-cart indicator for this card. -/
def qtyReconcileTrace : QtyState :=
  indicatorSync
    (clickPlus
      (clickPlus (addToCartClick false initialQtyState) (some { exc := false }))
      (some { exc := false }))

/-- A rendered card that has a title but no `.product-price` element
(the external renderer owns the markup; nothing guarantees the price
element's presence). -/
def cardNoPrice : Dom :=
  .node "div" ["card"]
    (.cons (.node "div" ["card-body"]
      (.cons (.node "h4" ["product-title"] .nil) .nil)) .nil)

/-- A concrete card with a price element, used to witness the
anchored-insertion statements. -/
def cardWithPrice : Dom :=
  .node "div" ["card"]
    (.cons (.node "div" ["card-body"]
      (.cons (.node "h4" ["product-title"] .nil)
        (.cons (.node "div" ["product-price"] .nil)
          (.cons (.node "button" ["btn-add-to-cart-list"] .nil) .nil)))) .nil)

/-- A one-element offers payload used in concrete instances. -/
def sampleOffer : Offer := { offer_title := "Buy 1 Get 1", offer_subtitle := none }

/-! ## General lemmas about the DOM model -/

mutual

theorem insertAfterS_false (p : Dom → Bool) (n : Dom) (d : Dom) :
    (insertAfterS p n d).2 = false → (insertAfterS p n d).1 = d := by
  cases d with
  | node t cls ds =>
    intro h
    simp only [insertAfterS] at h ⊢
    rw [insertAfterF_false p n ds h]

theorem insertAfterF_false (p : Dom → Bool) (n : Dom) (ds : DomForest) :
    (insertAfterF p n ds).2 = false → (insertAfterF p n ds).1 = ds := by
  cases ds with
  | nil => intro; rfl
  | cons d ds =>
    intro h
    by_cases hp : p d
    · simp [insertAfterF, hp] at h
    · by_cases hs : (insertAfterS p n d).2
      · simp [insertAfterF, hp, hs] at h
      · simp only [insertAfterF, hp, hs, Bool.false_eq_true, if_false] at h ⊢
        rw [insertAfterF_false p n ds h]

end

mutual

theorem insertAfterS_flag (p : Dom → Bool) (n : Dom) (d : Dom) :
    (insertAfterS p n d).2 = anyNodeF p d.childrenOf := by
  cases d with
  | node t cls ds =>
    simp only [insertAfterS, Dom.childrenOf]
    exact insertAfterF_flag p n ds

theorem insertAfterF_flag (p : Dom → Bool) (n : Dom) (ds : DomForest) :
    (insertAfterF p n ds).2 = anyNodeF p ds := by
  cases ds with
  | nil => rfl
  | cons d ds =>
    by_cases hp : p d
    · cases d with
      | node t cls cds => simp [insertAfterF, anyNodeF, anyNodeS, hp]
    · by_cases hs : (insertAfterS p n d).2
      · have h2 := insertAfterS_flag p n d
        rw [hs] at h2
        cases d with
        | node t cls cds =>
          simp only [Dom.childrenOf] at h2
          simp [insertAfterF, anyNodeF, anyNodeS, hp, hs, ← h2]
      · have h2 := insertAfterS_flag p n d
        rw [eq_false_of_ne_true hs] at h2
        cases d with
        | node t cls cds =>
          simp only [Dom.childrenOf] at h2
          simp [insertAfterF, anyNodeF, anyNodeS, hp, hs, ← h2,
            insertAfterF_flag p n ds]

end

mutual

theorem insertAfterS_count (p : Dom → Bool) (n : Dom) (d : Dom) (c : String) :
    countNodeS (hasCls c) (insertAfterS p n d).1 =
      countNodeS (hasCls c) d + (if (insertAfterS p n d).2 then countNodeS (hasCls c) n else 0) := by
  cases d with
  | node t cls ds =>
    simp only [insertAfterS, countNodeS, hasCls, Dom.classesOf]
    have := insertAfterF_count p n ds c
    by_cases hf : (insertAfterF p n ds).2 <;> simp [hf] at this ⊢ <;> omega

theorem insertAfterF_count (p : Dom → Bool) (n : Dom) (ds : DomForest) (c : String) :
    countNodeF (hasCls c) (insertAfterF p n ds).1 =
      countNodeF (hasCls c) ds + (if (insertAfterF p n ds).2 then countNodeS (hasCls c) n else 0) := by
  cases ds with
  | nil => rfl
  | cons d ds =>
    by_cases hp : p d
    · simp [insertAfterF, hp, countNodeF]
      omega
    · by_cases hs : (insertAfterS p n d).2
      · have := insertAfterS_count p n d c
        simp only [hs, if_true] at this
        simp [insertAfterF, hp, hs, countNodeF, this]
        omega
      · have := insertAfterF_count p n ds c
        simp only [insertAfterF, hp, hs, Bool.false_eq_true, if_false, countNodeF] at this ⊢
        by_cases hf : (insertAfterF p n ds).2 <;> simp [hf] at this ⊢ <;> omega

end

mutual

theorem anyNodeS_iff_count (q : Dom → Bool) (d : Dom) :
    anyNodeS q d = true ↔ 0 < countNodeS q d := by
  cases d with
  | node t cls ds =>
    simp only [anyNodeS, countNodeS, Bool.or_eq_true]
    constructor
    · rintro (h | h)
      · simp [h]
      · have := (anyNodeF_iff_count q ds).mp h
        omega
    · intro h
      by_cases hq : q (.node t cls ds)
      · exact Or.inl hq
      · refine Or.inr ((anyNodeF_iff_count q ds).mpr ?_)
        simp [hq] at h
        omega

theorem anyNodeF_iff_count (q : Dom → Bool) (ds : DomForest) :
    anyNodeF q ds = true ↔ 0 < countNodeF q ds := by
  cases ds with
  | nil => simp [anyNodeF, countNodeF]
  | cons d ds =>
    simp only [anyNodeF, countNodeF, Bool.or_eq_true]
    rw [anyNodeS_iff_count q d, anyNodeF_iff_count q ds]
    omega

end

/-- The root element is unchanged by `mapFirstS`. -/
theorem mapFirstS_root (p : Dom → Bool) (f : Dom → Dom) (d : Dom) :
    (mapFirstS p f d).1.tagOf = d.tagOf ∧ (mapFirstS p f d).1.classesOf = d.classesOf := by
  cases d with
  | node t cls ds => simp [mapFirstS, Dom.tagOf, Dom.classesOf]

mutual

theorem mapFirstS_false (p : Dom → Bool) (f : Dom → Dom) (d : Dom) :
    (mapFirstS p f d).2 = false → (mapFirstS p f d).1 = d := by
  cases d with
  | node t cls ds =>
    intro h
    simp only [mapFirstS] at h ⊢
    rw [mapFirstF_false p f ds h]

theorem mapFirstF_false (p : Dom → Bool) (f : Dom → Dom) (ds : DomForest) :
    (mapFirstF p f ds).2 = false → (mapFirstF p f ds).1 = ds := by
  cases ds with
  | nil => intro; rfl
  | cons d ds =>
    intro h
    by_cases hp : p d
    · simp [mapFirstF, hp] at h
    · by_cases hs : (mapFirstS p f d).2
      · simp [mapFirstF, hp, hs] at h
      · simp only [mapFirstF, hp, hs, Bool.false_eq_true, if_false] at h ⊢
        rw [mapFirstF_false p f ds h]

end

mutual

theorem mapFirstS_flag (p : Dom → Bool) (f : Dom → Dom) (d : Dom) :
    (mapFirstS p f d).2 = anyNodeF p d.childrenOf := by
  cases d with
  | node t cls ds =>
    simp only [mapFirstS, Dom.childrenOf]
    exact mapFirstF_flag p f ds

theorem mapFirstF_flag (p : Dom → Bool) (f : Dom → Dom) (ds : DomForest) :
    (mapFirstF p f ds).2 = anyNodeF p ds := by
  cases ds with
  | nil => rfl
  | cons d ds =>
    by_cases hp : p d
    · cases d with
      | node t cls cds => simp [mapFirstF, anyNodeF, anyNodeS, hp]
    · by_cases hs : (mapFirstS p f d).2
      · have h2 := mapFirstS_flag p f d
        rw [hs] at h2
        cases d with
        | node t cls cds =>
          simp only [Dom.childrenOf] at h2
          simp [mapFirstF, anyNodeF, anyNodeS, hp, hs, ← h2]
      · have h2 := mapFirstS_flag p f d
        rw [eq_false_of_ne_true hs] at h2
        cases d with
        | node t cls cds =>
          simp only [Dom.childrenOf] at h2
          simp [mapFirstF, anyNodeF, anyNodeS, hp, hs, ← h2, mapFirstF_flag p f ds]

end

mutual

theorem mapFirstS_count_le (p : Dom → Bool) (f : Dom → Dom) (c : String) (k : Nat)
    (hf : ∀ x, countNodeS (hasCls c) (f x) ≤ countNodeS (hasCls c) x + k) (d : Dom) :
    countNodeS (hasCls c) (mapFirstS p f d).1 ≤ countNodeS (hasCls c) d + k := by
  cases d with
  | node t cls ds =>
    simp only [mapFirstS, countNodeS, hasCls, Dom.classesOf]
    have := mapFirstF_count_le p f c k hf ds
    omega

theorem mapFirstF_count_le (p : Dom → Bool) (f : Dom → Dom) (c : String) (k : Nat)
    (hf : ∀ x, countNodeS (hasCls c) (f x) ≤ countNodeS (hasCls c) x + k) (ds : DomForest) :
    countNodeF (hasCls c) (mapFirstF p f ds).1 ≤ countNodeF (hasCls c) ds + k := by
  cases ds with
  | nil => simp [mapFirstF]
  | cons d ds =>
    by_cases hp : p d
    · simp only [mapFirstF, hp, if_true, countNodeF]
      have := hf d
      omega
    · by_cases hs : (mapFirstS p f d).2
      · simp only [mapFirstF, hp, hs, Bool.false_eq_true, if_false, if_true, countNodeF]
        have := mapFirstS_count_le p f c k hf d
        omega
      · simp only [mapFirstF, hp, hs, Bool.false_eq_true, if_false, countNodeF]
        have := mapFirstF_count_le p f c k hf ds
        omega

end

mutual

theorem mapFirstS_count_eq (p : Dom → Bool) (f : Dom → Dom) (c : String)
    (hf : ∀ x, countNodeS (hasCls c) (f x) = countNodeS (hasCls c) x) (d : Dom) :
    countNodeS (hasCls c) (mapFirstS p f d).1 = countNodeS (hasCls c) d := by
  cases d with
  | node t cls ds =>
    simp only [mapFirstS, countNodeS, hasCls, Dom.classesOf]
    have := mapFirstF_count_eq p f c hf ds
    omega

theorem mapFirstF_count_eq (p : Dom → Bool) (f : Dom → Dom) (c : String)
    (hf : ∀ x, countNodeS (hasCls c) (f x) = countNodeS (hasCls c) x) (ds : DomForest) :
    countNodeF (hasCls c) (mapFirstF p f ds).1 = countNodeF (hasCls c) ds := by
  cases ds with
  | nil => simp [mapFirstF]
  | cons d ds =>
    by_cases hp : p d
    · simp only [mapFirstF, hp, if_true, countNodeF]
      have := hf d
      omega
    · by_cases hs : (mapFirstS p f d).2
      · simp only [mapFirstF, hp, hs, Bool.false_eq_true, if_false, if_true, countNodeF]
        have := mapFirstS_count_eq p f c hf d
        omega
      · simp only [mapFirstF, hp, hs, Bool.false_eq_true, if_false, countNodeF]
        have := mapFirstF_count_eq p f c hf ds
        omega

end

mutual

theorem mapFirstS_compose (c : String) (f g : Dom → Dom)
    (hf : ∀ x, (f x).classesOf = x.classesOf) (d : Dom) :
    (mapFirstS (hasCls c) f d).2 = true →
    mapFirstS (hasCls c) g (mapFirstS (hasCls c) f d).1 =
      ((mapFirstS (hasCls c) (fun x => g (f x)) d).1, true) := by
  cases d with
  | node t cls ds =>
    intro h
    simp only [mapFirstS] at h ⊢
    have := mapFirstF_compose c f g hf ds h
    simp [this]

theorem mapFirstF_compose (c : String) (f g : Dom → Dom)
    (hf : ∀ x, (f x).classesOf = x.classesOf) (ds : DomForest) :
    (mapFirstF (hasCls c) f ds).2 = true →
    mapFirstF (hasCls c) g (mapFirstF (hasCls c) f ds).1 =
      ((mapFirstF (hasCls c) (fun x => g (f x)) ds).1, true) := by
  cases ds with
  | nil => intro h; simp [mapFirstF] at h
  | cons d ds =>
    intro h
    by_cases hp : hasCls c d
    · have hpf : hasCls c (f d) = true := by
        simp only [hasCls] at hp ⊢
        rw [hf d]
        exact hp
      simp [mapFirstF, hp, hpf]
    · by_cases hs : (mapFirstS (hasCls c) f d).2
      · have hroot := (mapFirstS_root (hasCls c) f d).2
        have hp1 : hasCls c (mapFirstS (hasCls c) f d).1 = false := by
          simp only [hasCls] at hp ⊢
          rw [hroot]
          exact eq_false_of_ne_true hp
        have hcomp := mapFirstS_compose c f g hf d hs
        have hflagS : (mapFirstS (hasCls c) (fun x => g (f x)) d).2 = true := by
          rw [mapFirstS_flag]
          rw [mapFirstS_flag] at hs
          exact hs
        simp only [mapFirstF, hp, hs, Bool.false_eq_true, if_false, if_true, hp1, hcomp,
          hflagS]
      · have hflag : (mapFirstF (hasCls c) f ds).2 = true := by
          simp only [mapFirstF, hp, hs, Bool.false_eq_true, if_false] at h
          exact h
        have hd : (mapFirstS (hasCls c) f d).1 = d := mapFirstS_false _ f d (eq_false_of_ne_true hs)
        have hsg : (mapFirstS (hasCls c) g d).2 = false := by
          rw [mapFirstS_flag]
          rw [mapFirstS_flag] at hs
          exact eq_false_of_ne_true hs
        have hsgf : (mapFirstS (hasCls c) (fun x => g (f x)) d).2 = false := by
          rw [mapFirstS_flag]
          rw [mapFirstS_flag] at hs
          exact eq_false_of_ne_true hs
        have hrec := mapFirstF_compose c f g hf ds hflag
        have hflaggf : (mapFirstF (hasCls c) (fun x => g (f x)) ds).2 = true := by
          rw [mapFirstF_flag]
          rw [mapFirstF_flag] at hflag
          exact hflag
        simp only [mapFirstF, hp, hs, Bool.false_eq_true, if_false, hd, hsg, hsgf, hrec,
          hflaggf]

end

mutual

theorem insertAfterS_flatten (p : Dom → Bool) (n : Dom) (d : Dom) :
    List.Sublist (flattenS d) (flattenS (insertAfterS p n d).1) := by
  cases d with
  | node t cls ds =>
    simp only [insertAfterS, flattenS]
    exact (insertAfterF_flatten p n ds).cons₂ _

theorem insertAfterF_flatten (p : Dom → Bool) (n : Dom) (ds : DomForest) :
    List.Sublist (flattenF ds) (flattenF (insertAfterF p n ds).1) := by
  cases ds with
  | nil => simp [insertAfterF]
  | cons d ds =>
    by_cases hp : p d
    · simp only [insertAfterF, hp, if_true, flattenF]
      refine List.Sublist.append_left ?_ _
      exact List.sublist_append_right _ _
    · by_cases hs : (insertAfterS p n d).2
      · simp only [insertAfterF, hp, hs, Bool.false_eq_true, if_false, if_true, flattenF]
        exact (insertAfterS_flatten p n d).append (List.Sublist.refl _)
      · simp only [insertAfterF, hp, hs, Bool.false_eq_true, if_false, flattenF]
        exact (List.Sublist.refl _).append (insertAfterF_flatten p n ds)

end

mutual

theorem mapFirstS_flatten (p : Dom → Bool) (f : Dom → Dom)
    (hf : ∀ x, List.Sublist (flattenS x) (flattenS (f x))) (d : Dom) :
    List.Sublist (flattenS d) (flattenS (mapFirstS p f d).1) := by
  cases d with
  | node t cls ds =>
    simp only [mapFirstS, flattenS]
    exact (mapFirstF_flatten p f hf ds).cons₂ _

theorem mapFirstF_flatten (p : Dom → Bool) (f : Dom → Dom)
    (hf : ∀ x, List.Sublist (flattenS x) (flattenS (f x))) (ds : DomForest) :
    List.Sublist (flattenF ds) (flattenF (mapFirstF p f ds).1) := by
  cases ds with
  | nil => simp [mapFirstF]
  | cons d ds =>
    by_cases hp : p d
    · simp only [mapFirstF, hp, if_true, flattenF]
      exact (hf d).append (List.Sublist.refl _)
    · by_cases hs : (mapFirstS p f d).2
      · simp only [mapFirstF, hp, hs, Bool.false_eq_true, if_false, if_true, flattenF]
        exact (mapFirstS_flatten p f hf d).append (List.Sublist.refl _)
      · simp only [mapFirstF, hp, hs, Bool.false_eq_true, if_false, flattenF]
        exact (List.Sublist.refl _).append (mapFirstF_flatten p f hf ds)

end

mutual

theorem insertAfterS_flatten_pos (p : Dom → Bool) (n : Dom) (d : Dom) :
    (insertAfterS p n d).2 = true →
    ∃ X d₀ Y, p d₀ = true ∧ flattenS d = X ++ (flattenS d₀ ++ Y) ∧
      flattenS (insertAfterS p n d).1 = X ++ (flattenS d₀ ++ (flattenS n ++ Y)) := by
  cases d with
  | node t cls ds =>
    intro h
    simp only [insertAfterS, flattenS] at h ⊢
    obtain ⟨X, d₀, Y, hpd, h1, h2⟩ := insertAfterF_flatten_pos p n ds h
    exact ⟨(t, cls) :: X, d₀, Y, hpd, by simp [h1], by simp [h2]⟩

theorem insertAfterF_flatten_pos (p : Dom → Bool) (n : Dom) (ds : DomForest) :
    (insertAfterF p n ds).2 = true →
    ∃ X d₀ Y, p d₀ = true ∧ flattenF ds = X ++ (flattenS d₀ ++ Y) ∧
      flattenF (insertAfterF p n ds).1 = X ++ (flattenS d₀ ++ (flattenS n ++ Y)) := by
  cases ds with
  | nil => intro h; simp [insertAfterF] at h
  | cons d ds =>
    intro h
    by_cases hp : p d
    · refine ⟨[], d, flattenF ds, hp, by simp [flattenF], ?_⟩
      simp [insertAfterF, hp, flattenF]
    · by_cases hs : (insertAfterS p n d).2
      · obtain ⟨X, d₀, Y, hpd, h1, h2⟩ := insertAfterS_flatten_pos p n d hs
        refine ⟨X, d₀, Y ++ flattenF ds, hpd, ?_, ?_⟩
        · simp [flattenF, h1]
        · simp [insertAfterF, hp, hs, flattenF, h2]
      · simp only [insertAfterF, hp, hs, Bool.false_eq_true, if_false] at h ⊢
        obtain ⟨X, d₀, Y, hpd, h1, h2⟩ := insertAfterF_flatten_pos p n ds h
        refine ⟨flattenS d ++ X, d₀, Y, hpd, ?_, ?_⟩
        · simp [flattenF, h1]
        · simp [flattenF, h2]

end

/-! ## Marker-class counting in the injected subtrees -/

theorem ceBadge_ne_ceBadges (s : String) : "ce-badge-" ++ s ≠ "ce-badges" := by
  intro h
  have h2 : ("ce-badge-" ++ s).data = "ce-badges".data := by rw [h]
  rw [String.data_append] at h2
  simp at h2

theorem ceBadge_ne_cardBody (s : String) : "ce-badge-" ++ s ≠ "card-body" := by
  intro h
  have h2 : ("ce-badge-" ++ s).data = "card-body".data := by rw [h]
  rw [String.data_append] at h2
  simp at h2

theorem count_badgeSpan_marker (b : Badge) :
    countNodeS (hasCls "ce-badges") (badgeSpan b) = 0 := by
  simp [badgeSpan, countNodeS, countNodeF, hasCls, Dom.classesOf, List.contains,
    Ne.symm (ceBadge_ne_ceBadges (slugify b.badge_type))]

theorem count_spans_marker (bs : List Badge) :
    countNodeF (hasCls "ce-badges") (DomForest.ofList (bs.map badgeSpan)) = 0 := by
  induction bs with
  | nil => rfl
  | cons b bs ih =>
    simp [DomForest.ofList, countNodeF, count_badgeSpan_marker, ih]

theorem count_badgesContainer_marker (bs : List Badge) :
    countNodeS (hasCls "ce-badges") (badgesContainer bs) = 1 := by
  simp [badgesContainer, countNodeS, hasCls, Dom.classesOf, count_spans_marker]

theorem count_badgesContainer_cardBody (bs : List Badge) :
    countNodeS (hasCls "card-body") (badgesContainer bs) = 0 := by
  induction bs with
  | nil => simp [badgesContainer, countNodeS, countNodeF, hasCls, Dom.classesOf, DomForest.ofList]
  | cons b bs ih =>
    simp [badgesContainer, countNodeS, countNodeF, DomForest.ofList, hasCls, Dom.classesOf,
      badgeSpan, Ne.symm (ceBadge_ne_cardBody (slugify b.badge_type))] at ih ⊢
    exact ih

theorem count_offerLines (offers : List Offer) :
    countNodeF (hasCls "offer-container") (DomForest.ofList (offers.map offerLine)) = 0 := by
  induction offers with
  | nil => rfl
  | cons o os ih =>
    simp [DomForest.ofList, countNodeF, countNodeS, offerLine, hasCls, Dom.classesOf, ih]

theorem count_offerWrapper (offers : List Offer) :
    countNodeS (hasCls "offer-container") (offerWrapper offers) = 1 := by
  simp [offerWrapper, offersHeading, countNodeS, countNodeF, hasCls, Dom.classesOf,
    count_offerLines]

theorem count_discountInfo_marker :
    countNodeS (hasCls "customer-discount-info") discountInfoNode = 1 := by decide

theorem count_discountInfo_price :
    countNodeS (hasCls "product-price") discountInfoNode = 0 := by decide

/-! ## Per-kind injection lemmas -/


theorem countNodeF_insertAfter_children (p : Dom → Bool) (n : Dom) (card : Dom) (c : String) :
    countNodeF (hasCls c) (insertAfterS p n card).1.childrenOf =
      countNodeF (hasCls c) card.childrenOf +
        (if (insertAfterS p n card).2 then countNodeS (hasCls c) n else 0) := by
  cases card with
  | node t cls ds =>
    simp only [insertAfterS, Dom.childrenOf]
    exact insertAfterF_count p n ds c

theorem selClass_insertAfter_true (p : Dom → Bool) (n : Dom) (card : Dom) (c : String)
    (h2 : (insertAfterS p n card).2 = true) (hn : 0 < countNodeS (hasCls c) n) :
    selClass c (insertAfterS p n card).1 = true := by
  unfold selClass
  rw [anyNodeF_iff_count, countNodeF_insertAfter_children, h2, if_pos rfl]
  omega

theorem injectOffers_idem (offers : List Offer) (card : Dom) :
    injectOffersCard offers (injectOffersCard offers card) = injectOffersCard offers card := by
  by_cases he : offers.isEmpty
  · simp [injectOffersCard, he]
  · by_cases hm : selClass "offer-container" card
    · simp [injectOffersCard, he, hm]
    · by_cases hr : (insertAfterS (hasCls "product-price") (offerWrapper offers) card).2
      · have hsel : selClass "offer-container"
            (insertAfterS (hasCls "product-price") (offerWrapper offers) card).1 = true := by
          refine selClass_insertAfter_true _ _ _ _ hr ?_
          rw [count_offerWrapper]
          omega
        simp [injectOffersCard, he, hm, hr, hsel]
      · simp [injectOffersCard, he, hm, hr]

theorem injectOffers_count (offers : List Offer) (card : Dom) :
    countNodeS (hasCls "offer-container") (injectOffersCard offers card) ≤
      countNodeS (hasCls "offer-container") card + 1 := by
  by_cases he : offers.isEmpty
  · simp [injectOffersCard, he]
  · by_cases hm : selClass "offer-container" card
    · simp [injectOffersCard, he, hm]
    · by_cases hr : (insertAfterS (hasCls "product-price") (offerWrapper offers) card).2
      · simp only [injectOffersCard, he, hm, hr, Bool.false_eq_true, if_false, if_true]
        rw [insertAfterS_count, hr, if_pos rfl, count_offerWrapper]
      · simp [injectOffersCard, he, hm, hr]



theorem injectDiscount_idem (q : Option ℚ) (card : Dom) :
    injectDiscountCard q (injectDiscountCard q card) = injectDiscountCard q card := by
  match q with
  | none => rfl
  | some v =>
    by_cases hv : v = 0
    · simp [injectDiscountCard, hv]
    · by_cases hp : selClass "product-price" card
      · by_cases hm : selClass "customer-discount-info" card
        · simp [injectDiscountCard, hv, hp, hm]
        · have hflag : (insertAfterS (hasCls "product-price") discountInfoNode card).2 = true := by
            rw [insertAfterS_flag]
            exact hp
          have hp1 : selClass "product-price"
              (insertAfterS (hasCls "product-price") discountInfoNode card).1 = true := by
            unfold selClass at hp ⊢
            rw [anyNodeF_iff_count] at hp ⊢
            rw [countNodeF_insertAfter_children, hflag, if_pos rfl, count_discountInfo_price]
            omega
          have hm1 : selClass "customer-discount-info"
              (insertAfterS (hasCls "product-price") discountInfoNode card).1 = true := by
            refine selClass_insertAfter_true _ _ _ _ hflag ?_
            rw [count_discountInfo_marker]
            omega
          simp [injectDiscountCard, hv, hp, hm, hp1, hm1]
      · simp [injectDiscountCard, hv, hp]

theorem injectDiscount_count (q : Option ℚ) (card : Dom) :
    countNodeS (hasCls "customer-discount-info") (injectDiscountCard q card) ≤
      countNodeS (hasCls "customer-discount-info") card + 1 := by
  match q with
  | none => simp [injectDiscountCard]
  | some v =>
    by_cases hv : v = 0
    · simp [injectDiscountCard, hv]
    · by_cases hp : selClass "product-price" card
      · by_cases hm : selClass "customer-discount-info" card
        · simp [injectDiscountCard, hv, hp, hm]
        · have hred : injectDiscountCard (some v) card =
              (insertAfterS (hasCls "product-price") discountInfoNode card).1 := by
            simp [injectDiscountCard, hv, hp, hm]
          rw [hred, insertAfterS_count, count_discountInfo_marker]
          split <;> omega
      · simp [injectDiscountCard, hv, hp]



theorem anyNodeS_badgesContainer (bs : List Badge) :
    anyNodeS (hasCls "ce-badges") (badgesContainer bs) = true := by
  simp [badgesContainer, anyNodeS, hasCls, Dom.classesOf]

theorem anyNodeF_eq_false_iff (q : Dom → Bool) (ds : DomForest) :
    anyNodeF q ds = false ↔ countNodeF q ds = 0 := by
  rw [← Bool.not_eq_true, anyNodeF_iff_count]
  omega

theorem injectBody_root (bs : List Badge) (body : Dom) :
    (injectBody bs body).tagOf = body.tagOf ∧ (injectBody bs body).classesOf = body.classesOf := by
  by_cases hm : selClass "ce-badges" body
  · simp [injectBody, hm]
  · by_cases h1 : (insertAfterS (hasCls "product-title") (badgesContainer bs) body).2
    · have hred : injectBody bs body =
          (insertAfterS (hasCls "product-title") (badgesContainer bs) body).1 := by
        simp [injectBody, hm, h1]
      rw [hred]
      cases body with
      | node t cls ds => simp [insertAfterS, Dom.tagOf, Dom.classesOf]
    · by_cases h2 : (insertAfterS isTitleTag (badgesContainer bs) body).2
      · have hred : injectBody bs body = (insertAfterS isTitleTag (badgesContainer bs) body).1 := by
          simp [injectBody, hm, h1, h2]
        rw [hred]
        cases body with
        | node t cls ds => simp [insertAfterS, Dom.tagOf, Dom.classesOf]
      · have hred : injectBody bs body =
            .node body.tagOf body.classesOf (.cons (badgesContainer bs) body.childrenOf) := by
          simp [injectBody, hm, h1, h2]
        rw [hred]
        simp [Dom.tagOf, Dom.classesOf]

theorem injectBody_idem (bs : List Badge) (body : Dom) :
    injectBody bs (injectBody bs body) = injectBody bs body := by
  by_cases hm : selClass "ce-badges" body
  · simp [injectBody, hm]
  · by_cases h1 : (insertAfterS (hasCls "product-title") (badgesContainer bs) body).2
    · have hm1 : selClass "ce-badges"
          (insertAfterS (hasCls "product-title") (badgesContainer bs) body).1 = true := by
        refine selClass_insertAfter_true _ _ _ _ h1 ?_
        rw [count_badgesContainer_marker]
        omega
      have hred : injectBody bs body =
          (insertAfterS (hasCls "product-title") (badgesContainer bs) body).1 := by
        simp [injectBody, hm, h1]
      rw [hred]
      simp [injectBody, hm1]
    · by_cases h2 : (insertAfterS isTitleTag (badgesContainer bs) body).2
      · have hm1 : selClass "ce-badges"
            (insertAfterS isTitleTag (badgesContainer bs) body).1 = true := by
          refine selClass_insertAfter_true _ _ _ _ h2 ?_
          rw [count_badgesContainer_marker]
          omega
        have hred : injectBody bs body = (insertAfterS isTitleTag (badgesContainer bs) body).1 := by
          simp [injectBody, hm, h1, h2]
        rw [hred]
        simp [injectBody, hm1]
      · have hred : injectBody bs body =
            .node body.tagOf body.classesOf (.cons (badgesContainer bs) body.childrenOf) := by
          simp [injectBody, hm, h1, h2]
        have hm1 : selClass "ce-badges"
            (Dom.node body.tagOf body.classesOf (.cons (badgesContainer bs) body.childrenOf))
              = true := by
          simp [selClass, Dom.childrenOf, anyNodeF, anyNodeS_badgesContainer]
        rw [hred]
        simp [injectBody, hm1]

theorem injectBody_countF_cb (bs : List Badge) (body : Dom) :
    countNodeF (hasCls "card-body") (injectBody bs body).childrenOf =
      countNodeF (hasCls "card-body") body.childrenOf := by
  by_cases hm : selClass "ce-badges" body
  · simp [injectBody, hm]
  · by_cases h1 : (insertAfterS (hasCls "product-title") (badgesContainer bs) body).2
    · have hred : injectBody bs body =
          (insertAfterS (hasCls "product-title") (badgesContainer bs) body).1 := by
        simp [injectBody, hm, h1]
      rw [hred, countNodeF_insertAfter_children, h1, if_pos rfl, count_badgesContainer_cardBody]
      omega
    · by_cases h2 : (insertAfterS isTitleTag (badgesContainer bs) body).2
      · have hred : injectBody bs body = (insertAfterS isTitleTag (badgesContainer bs) body).1 := by
          simp [injectBody, hm, h1, h2]
        rw [hred, countNodeF_insertAfter_children, h2, if_pos rfl, count_badgesContainer_cardBody]
        omega
      · have hred : injectBody bs body =
            .node body.tagOf body.classesOf (.cons (badgesContainer bs) body.childrenOf) := by
          simp [injectBody, hm, h1, h2]
        rw [hred]
        simp [Dom.childrenOf, countNodeF, count_badgesContainer_cardBody]

theorem injectBody_count_marker_le (bs : List Badge) (body : Dom) :
    countNodeS (hasCls "ce-badges") (injectBody bs body) ≤
      countNodeS (hasCls "ce-badges") body + 1 := by
  by_cases hm : selClass "ce-badges" body
  · simp [injectBody, hm]
  · by_cases h1 : (insertAfterS (hasCls "product-title") (badgesContainer bs) body).2
    · have hred : injectBody bs body =
          (insertAfterS (hasCls "product-title") (badgesContainer bs) body).1 := by
        simp [injectBody, hm, h1]
      rw [hred, insertAfterS_count, count_badgesContainer_marker]
      split <;> omega
    · by_cases h2 : (insertAfterS isTitleTag (badgesContainer bs) body).2
      · have hred : injectBody bs body = (insertAfterS isTitleTag (badgesContainer bs) body).1 := by
          simp [injectBody, hm, h1, h2]
        rw [hred, insertAfterS_count, count_badgesContainer_marker]
        split <;> omega
      · have hred : injectBody bs body =
            .node body.tagOf body.classesOf (.cons (badgesContainer bs) body.childrenOf) := by
          simp [injectBody, hm, h1, h2]
        rw [hred]
        cases body with
        | node t cls ds =>
          simp only [Dom.tagOf, Dom.classesOf, Dom.childrenOf]
          show (if hasCls "ce-badges" (Dom.node t cls (DomForest.cons (badgesContainer bs) ds))
                then 1 else 0) +
              (countNodeS (hasCls "ce-badges") (badgesContainer bs) +
                countNodeF (hasCls "ce-badges") ds) ≤
            ((if hasCls "ce-badges" (Dom.node t cls ds) then 1 else 0) +
              countNodeF (hasCls "ce-badges") ds) + 1
          rw [count_badgesContainer_marker]
          simp only [hasCls, Dom.classesOf]
          omega

theorem injectBadges_idem (bs : List Badge) (card : Dom) :
    injectBadgesCard bs (injectBadgesCard bs card) = injectBadgesCard bs card := by
  by_cases hbs : bs.isEmpty
  · simp [injectBadgesCard, hbs]
  · by_cases hr : (mapFirstS (hasCls "card-body") (injectBody bs) card).2
    · have hcomp := mapFirstS_compose "card-body" (injectBody bs) (injectBody bs)
        (fun x => (injectBody_root bs x).2) card hr
      have hfun : (fun x => injectBody bs (injectBody bs x)) = injectBody bs := by
        funext x
        exact injectBody_idem bs x
      rw [hfun] at hcomp
      have hred : injectBadgesCard bs card = (mapFirstS (hasCls "card-body") (injectBody bs) card).1 := by
        simp [injectBadgesCard, hbs, hr]
      rw [hred]
      simp [injectBadgesCard, hbs, hcomp]
    · have hred : injectBadgesCard bs card = injectBody bs card := by
        simp [injectBadgesCard, hbs, hr]
      have hflag2 : (mapFirstS (hasCls "card-body") (injectBody bs) (injectBody bs card)).2 = false := by
        rw [Bool.not_eq_true, mapFirstS_flag, anyNodeF_eq_false_iff] at hr
        rw [mapFirstS_flag, anyNodeF_eq_false_iff, injectBody_countF_cb]
        exact hr
      rw [hred]
      simp only [injectBadgesCard, hbs, Bool.false_eq_true, if_false, hflag2]
      exact injectBody_idem bs card

theorem injectBadges_count (bs : List Badge) (card : Dom) :
    countNodeS (hasCls "ce-badges") (injectBadgesCard bs card) ≤
      countNodeS (hasCls "ce-badges") card + 1 := by
  by_cases hbs : bs.isEmpty
  · simp [injectBadgesCard, hbs]
  · by_cases hr : (mapFirstS (hasCls "card-body") (injectBody bs) card).2
    · have hred : injectBadgesCard bs card = (mapFirstS (hasCls "card-body") (injectBody bs) card).1 := by
        simp [injectBadgesCard, hbs, hr]
      rw [hred]
      exact mapFirstS_count_le _ _ _ 1 (injectBody_count_marker_le bs) card
    · have hred : injectBadgesCard bs card = injectBody bs card := by
        simp [injectBadgesCard, hbs, hr]
      rw [hred]
      exact injectBody_count_marker_le bs card


/-! ## Codec round-trip lemmas -/


theorem hexVal_hexDigitChar : ∀ n : Nat, n < 16 → hexVal (hexDigitChar n) = some n := by
  decide

theorem parse_escapeList (l : List Char) (rest : List Char) :
    parseJStringBody (escapeList l ++ '"' :: rest) = some (l, rest) := by
  induction l with
  | nil =>
    show parseJStringBody ('"' :: rest) = some ([], rest)
    rw [parseJStringBody.eq_def]
    norm_num
  | cons c cs ih =>
    rw [show escapeList (c :: cs) ++ '"' :: rest = escapeChar c ++ (escapeList cs ++ '"' :: rest)
      from by simp [escapeList]]
    by_cases h1 : c = '"'
    · subst h1
      rw [show escapeChar '"' = ['\\', '"'] from rfl]
      rw [List.cons_append, List.cons_append, parseJStringBody.eq_def]
      simp +decide [ih]
    · by_cases h2 : c = '\\'
      · subst h2
        rw [show escapeChar '\\' = ['\\', '\\'] from by simp +decide [escapeChar]]
        rw [List.cons_append, List.cons_append, parseJStringBody.eq_def]
        simp +decide [ih]
      · by_cases h3 : c = Char.ofNat 8
        · subst h3
          rw [show escapeChar (Char.ofNat 8) = ['\\', 'b'] from by simp +decide [escapeChar]]
          rw [List.cons_append, List.cons_append, parseJStringBody.eq_def]
          simp +decide [ih]
        · by_cases h4 : c = Char.ofNat 9
          · subst h4
            rw [show escapeChar (Char.ofNat 9) = ['\\', 't'] from by simp +decide [escapeChar]]
            rw [List.cons_append, List.cons_append, parseJStringBody.eq_def]
            simp +decide [ih]
          · by_cases h5 : c = Char.ofNat 10
            · subst h5
              rw [show escapeChar (Char.ofNat 10) = ['\\', 'n'] from by simp +decide [escapeChar]]
              rw [List.cons_append, List.cons_append, parseJStringBody.eq_def]
              simp +decide [ih]
            · by_cases h6 : c = Char.ofNat 12
              · subst h6
                rw [show escapeChar (Char.ofNat 12) = ['\\', 'f'] from by simp +decide [escapeChar]]
                rw [List.cons_append, List.cons_append, parseJStringBody.eq_def]
                simp +decide [ih]
              · by_cases h7 : c = Char.ofNat 13
                · subst h7
                  rw [show escapeChar (Char.ofNat 13) = ['\\', 'r'] from by simp +decide [escapeChar]]
                  rw [List.cons_append, List.cons_append, parseJStringBody.eq_def]
                  simp +decide [ih]
                · by_cases h8 : c.toNat < 32
                  · have hdiv : c.toNat / 16 < 16 := by omega
                    have hmod : c.toNat % 16 < 16 := Nat.mod_lt _ (by omega)
                    have e1 := hexVal_hexDigitChar _ hdiv
                    have e2 := hexVal_hexDigitChar _ hmod
                    have hchar : Char.ofNat (c.toNat / 16 * 16 + c.toNat % 16) = c := by
                      have heq : c.toNat / 16 * 16 + c.toNat % 16 = c.toNat := by omega
                      rw [heq, Char.ofNat_toNat]
                    have hesc : escapeChar c =
                        ['\\', 'u', '0', '0', hexDigitChar (c.toNat / 16), hexDigitChar (c.toNat % 16)] := by
                      simp [escapeChar, h1, h2, h3, h4, h5, h6, h7, h8]
                    rw [hesc]
                    rw [List.cons_append, List.cons_append, List.cons_append, List.cons_append,
                      List.cons_append, List.cons_append, parseJStringBody.eq_def]
                    have h0 : hexVal '0' = some 0 := by decide
                    simp +decide [ih, e1, e2, h0, hchar]
                  · have hesc : escapeChar c = [c] := by
                      simp [escapeChar, h1, h2, h3, h4, h5, h6, h7, h8]
                    rw [hesc, List.cons_append, parseJStringBody.eq_def]
                    simp [h1, h2, h8, ih]



theorem stringMk_data (s : String) : String.mk s.data = s := rfl

theorem jstr_append (s : String) (X : List Char) :
    jstrChars s ++ X = '"' :: (escapeList s.data ++ '"' :: X) := by
  simp [jstrChars]

theorem parse_encodeItems (vs : List String) (hvs : vs ≠ []) :
    ∀ (fuel : Nat), vs.length ≤ fuel →
      ∀ rest, parseItems fuel (encodeItems vs ++ rest) = some (vs, rest) := by
  induction vs with
  | nil => exact absurd rfl hvs
  | cons v vs ih =>
    intro fuel hf rest
    match fuel with
    | 0 => simp at hf
    | f + 1 =>
      match vs with
      | [] =>
        have hform : encodeItems [v] ++ rest = '"' :: (escapeList v.data ++ '"' :: ']' :: rest) := by
          show (jstrChars v ++ [']']) ++ rest = _
          rw [List.append_assoc, jstr_append]
          rfl
        rw [hform]
        simp only [parseItems, parse_escapeList, stringMk_data]
      | v' :: vs' =>
        have hform : encodeItems (v :: v' :: vs') ++ rest =
            '"' :: (escapeList v.data ++ '"' :: ',' :: (encodeItems (v' :: vs') ++ rest)) := by
          show (jstrChars v ++ (',' :: encodeItems (v' :: vs'))) ++ rest = _
          rw [List.append_assoc, jstr_append]
          rfl
        rw [hform]
        have hrec := ih (by simp) f (by simpa using hf) rest
        simp only [parseItems, parse_escapeList, hrec, stringMk_data]



theorem encodeItems_length (vs : List String) : vs.length ≤ (encodeItems vs).length := by
  induction vs with
  | nil => simp [encodeItems]
  | cons v vs ih =>
    match vs with
    | [] => simp [encodeItems, jstrChars]
    | v' :: vs' =>
      show (v :: v' :: vs').length ≤ (jstrChars v ++ (',' :: encodeItems (v' :: vs'))).length
      simp only [List.length_cons, List.length_append, jstrChars] at ih ⊢
      omega

theorem encodeMembers_length (st : FacetState) : st.length ≤ (encodeMembers st).length := by
  induction st with
  | nil => simp [encodeMembers]
  | cons m st ih =>
    match m, st with
    | (k, vs), [] => simp [encodeMembers, jstrChars]
    | (k, vs), m' :: st' =>
      show ((k, vs) :: m' :: st').length ≤
        (jstrChars k ++ (':' :: (encodeArray vs ++ (',' :: encodeMembers (m' :: st'))))).length
      simp only [List.length_cons, List.length_append, jstrChars] at ih ⊢
      omega

theorem parse_encodeArray (vs : List String) (rest : List Char) :
    parseArray (encodeArray vs ++ rest) = some (vs, rest) := by
  match vs with
  | [] => rfl
  | v :: vs' =>
    obtain ⟨tail, htail⟩ : ∃ t, encodeItems (v :: vs') ++ rest = '"' :: t := by
      match vs' with
      | [] =>
        refine ⟨escapeList v.data ++ '"' :: ([']'] ++ rest), ?_⟩
        show (jstrChars v ++ [']']) ++ rest = _
        rw [List.append_assoc, jstr_append]
      | v'' :: vs'' =>
        refine ⟨escapeList v.data ++ '"' :: ((',' :: encodeItems (v'' :: vs'')) ++ rest), ?_⟩
        show (jstrChars v ++ (',' :: encodeItems (v'' :: vs''))) ++ rest = _
        rw [List.append_assoc, jstr_append]
    have hlen : (v :: vs').length ≤ (encodeItems (v :: vs') ++ rest).length := by
      have := encodeItems_length (v :: vs')
      simp only [List.length_append]
      omega
    have hparse := parse_encodeItems (v :: vs') (by simp) ((encodeItems (v :: vs') ++ rest).length)
      hlen rest
    show parseArray (('[' :: encodeItems (v :: vs')) ++ rest) = some (v :: vs', rest)
    rw [List.cons_append]
    rw [htail] at hparse ⊢
    simp only [parseArray]
    exact hparse

theorem parse_encodeMembers (st : FacetState) (hst : st ≠ []) :
    ∀ (fuel : Nat), st.length ≤ fuel →
      ∀ rest, parseMembers fuel (encodeMembers st ++ rest) = some (st, rest) := by
  induction st with
  | nil => exact absurd rfl hst
  | cons m st ih =>
    intro fuel hf rest
    match fuel with
    | 0 => simp at hf
    | f + 1 =>
      match m, st with
      | (k, vs), [] =>
        have hform : encodeMembers [(k, vs)] ++ rest =
            '"' :: (escapeList k.data ++ '"' :: ':' :: (encodeArray vs ++ '}' :: rest)) := by
          show (jstrChars k ++ (':' :: (encodeArray vs ++ ['}']))) ++ rest = _
          rw [List.append_assoc, jstr_append]
          simp
        rw [hform]
        have harr := parse_encodeArray vs ('}' :: rest)
        simp only [parseMembers, parse_escapeList, harr, stringMk_data]
      | (k, vs), m' :: st' =>
        have hform : encodeMembers ((k, vs) :: m' :: st') ++ rest =
            '"' :: (escapeList k.data ++ '"' :: ':' ::
              (encodeArray vs ++ ',' :: (encodeMembers (m' :: st') ++ rest))) := by
          show (jstrChars k ++ (':' :: (encodeArray vs ++ (',' :: encodeMembers (m' :: st'))))) ++
              rest = _
          rw [List.append_assoc, jstr_append]
          simp
        rw [hform]
        have harr := parse_encodeArray vs (',' :: (encodeMembers (m' :: st') ++ rest))
        have hrec := ih (by simp) f (by simpa using hf) rest
        simp only [parseMembers, parse_escapeList, harr, hrec, stringMk_data, Option.map_some]
        rfl

theorem parse_encodeObj (st : FacetState) (hst : st ≠ []) :
    parseObj (encodeObj st) = some (st, []) := by
  match st with
  | m :: ms =>
    obtain ⟨tail, htail⟩ : ∃ t, encodeMembers (m :: ms) = '"' :: t := by
      match m, ms with
      | (k, vs), [] =>
        refine ⟨escapeList k.data ++ '"' :: (':' :: (encodeArray vs ++ ['}'])), ?_⟩
        show jstrChars k ++ (':' :: (encodeArray vs ++ ['}'])) = _
        rw [jstr_append]
      | (k, vs), m' :: ms' =>
        refine ⟨escapeList k.data ++
          '"' :: (':' :: (encodeArray vs ++ (',' :: encodeMembers (m' :: ms')))), ?_⟩
        show jstrChars k ++ (':' :: (encodeArray vs ++ (',' :: encodeMembers (m' :: ms')))) = _
        rw [jstr_append]
    have hlen : (m :: ms).length ≤ (encodeMembers (m :: ms)).length := encodeMembers_length _
    have hparse := parse_encodeMembers (m :: ms) (by simp) ((encodeMembers (m :: ms)).length)
      hlen []
    rw [List.append_nil] at hparse
    show parseObj ('{' :: encodeMembers (m :: ms)) = some (m :: ms, [])
    rw [htail] at hparse ⊢
    simp only [parseObj]
    exact hparse


/-! ## Association-list and fold lemmas -/


theorem lookup_setKey_self {α : Type} (st : List (String × α)) (k : String) (v : α) :
    lookupKey (setKey st k v) k = some v := by
  induction st with
  | nil => simp [setKey, lookupKey]
  | cons m st ih =>
    obtain ⟨k', w⟩ := m
    by_cases h : k' = k
    · simp [setKey, h, lookupKey]
    · simp [setKey, h, lookupKey, ih]

theorem lookup_setKey_other {α : Type} (st : List (String × α)) (k k' : String) (v : α)
    (h : k' ≠ k) : lookupKey (setKey st k v) k' = lookupKey st k' := by
  induction st with
  | nil => simp [setKey, lookupKey, Ne.symm h]
  | cons m st ih =>
    obtain ⟨k'', w⟩ := m
    by_cases h2 : k'' = k
    · subst h2
      simp [setKey, lookupKey, Ne.symm h]
    · simp only [setKey, h2, if_false, lookupKey]
      by_cases h3 : k'' = k'
      · simp [h3]
      · simp [h3, ih]

theorem lookup_eraseKey_self {α : Type} (st : List (String × α)) (k : String) :
    lookupKey (eraseKey st k) k = none := by
  induction st with
  | nil => simp [eraseKey, lookupKey]
  | cons m st ih =>
    obtain ⟨k', w⟩ := m
    by_cases h : k' = k
    · simp [eraseKey, h, ih]
    · simp [eraseKey, h, lookupKey, ih]

theorem lookup_eraseKey_other {α : Type} (st : List (String × α)) (k k' : String)
    (h : k' ≠ k) : lookupKey (eraseKey st k) k' = lookupKey st k' := by
  induction st with
  | nil => simp [eraseKey]
  | cons m st ih =>
    obtain ⟨k'', w⟩ := m
    by_cases h2 : k'' = k
    · subst h2
      simp [eraseKey, lookupKey, Ne.symm h, ih]
    · simp only [eraseKey, h2, if_false, lookupKey]
      by_cases h3 : k'' = k'
      · simp [h3]
      · simp [h3, ih]

theorem setKey_lookup_self {α : Type} (st : List (String × α)) (k : String) (w : α)
    (h : lookupKey st k = some w) : setKey st k w = st := by
  induction st with
  | nil => simp [lookupKey] at h
  | cons m st ih =>
    obtain ⟨k', v⟩ := m
    by_cases h2 : k' = k
    · subst h2
      simp [lookupKey] at h
      subst h
      simp [setKey]
    · simp only [lookupKey, h2, if_false] at h
      simp [setKey, h2, ih h]

theorem setKey_setKey {α : Type} (st : List (String × α)) (k : String) (a b : α) :
    setKey (setKey st k a) k b = setKey st k b := by
  induction st with
  | nil => simp [setKey]
  | cons m st ih =>
    obtain ⟨k', v⟩ := m
    by_cases h : k' = k
    · simp [setKey, h]
    · simp [setKey, h, ih]

theorem eraseKey_setKey {α : Type} (st : List (String × α)) (k : String) (v : α) :
    eraseKey (setKey st k v) k = eraseKey st k := by
  induction st with
  | nil => simp [setKey, eraseKey]
  | cons m st ih =>
    obtain ⟨k', w⟩ := m
    by_cases h : k' = k
    · simp [setKey, h, eraseKey, ih]
    · simp [setKey, h, eraseKey, ih]

theorem setKey_absent {α : Type} (st : List (String × α)) (k : String) (v : α)
    (h : lookupKey st k = none) : setKey st k v = st ++ [(k, v)] := by
  induction st with
  | nil => simp [setKey]
  | cons m st ih =>
    obtain ⟨k', w⟩ := m
    by_cases h2 : k' = k
    · subst h2
      simp [lookupKey] at h
    · simp only [lookupKey, h2, if_false] at h
      simp [setKey, h2, ih h]

theorem eraseKey_append {α : Type} (a b : List (String × α)) (k : String) :
    eraseKey (a ++ b) k = eraseKey a k ++ eraseKey b k := by
  induction a with
  | nil => simp [eraseKey]
  | cons m a ih =>
    obtain ⟨k', w⟩ := m
    by_cases h : k' = k
    · simp [eraseKey, h, ih]
    · simp [eraseKey, h, ih]

theorem eraseKey_absent {α : Type} (st : List (String × α)) (k : String)
    (h : lookupKey st k = none) : eraseKey st k = st := by
  induction st with
  | nil => rfl
  | cons m st ih =>
    obtain ⟨k', w⟩ := m
    by_cases h2 : k' = k
    · subst h2
      simp [lookupKey] at h
    · simp only [lookupKey, h2, if_false] at h
      simp [eraseKey, h2, ih h]

theorem le_foldl_max_init (init : ℚ) (vs : List ℚ) : init ≤ vs.foldl max init := by
  induction vs generalizing init with
  | nil => simp
  | cons w ws ih =>
    simp only [List.foldl_cons]
    exact le_trans (le_max_left init w) (ih (max init w))

theorem le_foldl_max (v : ℚ) (vs : List ℚ) : ∀ x ∈ v :: vs, x ≤ vs.foldl max v := by
  induction vs generalizing v with
  | nil =>
    intro x hx
    simp at hx
    simp [hx]
  | cons w ws ih =>
    intro x hx
    simp only [List.foldl_cons]
    simp only [List.mem_cons] at hx
    rcases hx with rfl | rfl | hx
    · exact le_trans (le_max_left x w) (le_foldl_max_init _ _)
    · exact le_trans (le_max_right v x) (le_foldl_max_init _ _)
    · exact ih (max v w) x (by simp [hx])


/-! ## Claim theorems -/


theorem enforce_spec (s : SliderState) :
    sliderConsistent (enforceOrderContinuous s) ∧
    (((enforceOrderContinuous s).minSlider = s.minSlider ∧
      (enforceOrderContinuous s).maxSlider = s.maxSlider) ∨
     ((enforceOrderContinuous s).minSlider = s.maxSlider ∧
      (enforceOrderContinuous s).maxSlider = s.minSlider)) := by
  unfold enforceOrderContinuous sliderConsistent
  by_cases h : s.minSlider > s.maxSlider
  · simp [h]
    linarith
  · simp [h]
    linarith

/-- C5: when the cart-update response carries the error flag, the
callback of `updateQty` returns before touching the card: the whole
quantity-overlay state — displayed value, wrapper visibility,
add-to-cart button — is left exactly as it was, in particular an
errored update to quantity 0 does not hide the stepper. -/
theorem cart_error_no_transition (s : QtyState) (newQty : Nat) :
    updateQtyCallback s newQty (some { exc := true }) = s := by
  simp [updateQtyCallback]

/-- C9: after `enforceOrderContinuous` runs, the min handle is at most
the max handle (violations having been resolved by swapping the two
values), and both numeric input boxes equal the handle values; the
numeric-input change handlers, which end in the same enforcement step,
preserve the same consistency. -/
theorem slider_enforce_consistent :
    ∀ s : SliderState,
      sliderConsistent (enforceOrderContinuous s) ∧
      (((enforceOrderContinuous s).minSlider = s.minSlider ∧
        (enforceOrderContinuous s).maxSlider = s.maxSlider) ∨
       ((enforceOrderContinuous s).minSlider = s.maxSlider ∧
        (enforceOrderContinuous s).maxSlider = s.minSlider)) ∧
      (∀ maxPrice q : ℚ, sliderConsistent (minInputChange maxPrice s (some q))) ∧
      (∀ maxPrice q : ℚ, sliderConsistent (maxInputChange maxPrice s (some q))) := by
  intro s
  refine ⟨(enforce_spec s).1, (enforce_spec s).2, ?_, ?_⟩
  · intro maxPrice q
    exact (enforce_spec _).1
  · intro maxPrice q
    exact (enforce_spec _).1

/-- C4 counterexample: the offers script registers a single 600 ms
`setTimeout` and no mutation observer, so it has neither the fallback
delay sequence nor the debounced mutation trigger the claim ascribes to
every annotation kind. -/
theorem trigger_policy_counterexample :
    ¬ specTriggerPolicy offersTriggers ∧
    offersTriggers.delays = [600] ∧ offersTriggers.observerDebounce = none := by
  refine ⟨?_, rfl, rfl⟩
  intro h
  simp [specTriggerPolicy, offersTriggers] at h

/-- C4 amended: only the badges coordinator has the full trigger
policy — initial delay 600 ms, increasing fallback delays 1500 and
3000 ms, and a mutation observer debounced by a 400 ms quiet period
that coalesces any burst of mutations (consecutive gaps below the
quiet period) into exactly one sync; the offers and discount
coordinators are invoked once on a single fixed delay (600 ms and
500 ms) with no fallback sequence and no observer. -/
theorem trigger_policy_amended :
    specTriggerPolicy badgesTriggers ∧
    badgesTriggers = { delays := [600, 1500, 3000], observerDebounce := some 400 } ∧
    offersTriggers = { delays := [600], observerDebounce := none } ∧
    discountTriggers = { delays := [500], observerDebounce := none } ∧
    ∀ ts : List Nat, ts ≠ [] → List.Chain' (fun a b => b - a < 400) ts →
      debounceFires 400 ts = 1 := by
  refine ⟨⟨by decide, by norm_num [badgesTriggers, List.chain'_cons], by decide⟩, rfl, rfl, rfl, ?_⟩
  intro ts hne hchain
  induction ts with
  | nil => exact absurd rfl hne
  | cons t ts ih =>
    match ts with
    | [] => rfl
    | t₂ :: ts₂ =>
      rw [List.chain'_cons] at hchain
      have h1 : ¬ 400 ≤ t₂ - t := by omega
      have h2 := ih (by simp) hchain.2
      simp only [debounceFires, h1, if_false]
      omega

theorem trigger_policy_amended_witness : debounceFires 400 [0, 100, 350] = 1 :=
  trigger_policy_amended.2.2.2.2 [0, 100, 350] (by decide) (by norm_num [List.chain'_cons])

/-- C3 counterexample: starting from an untracked card, the user adds
the item to the cart and increments twice with backend confirmation,
reaching a confirmed quantity of 3; a subsequent externally triggered
`syncExistingInCartCards` pass (visible in-cart indicator) calls
`renderQtyControls(card, code, 1)`, which overwrites the displayed
quantity with 1 while the last backend-confirmed quantity is still 3. -/
theorem qty_reconcile_counterexample :
    qtyReconcileTrace.inputValue = 1 ∧ qtyReconcileTrace.lastConfirmed = some 3 ∧
    some qtyReconcileTrace.inputValue ≠ qtyReconcileTrace.lastConfirmed := by
  decide

/-- C3 amended: an error response from the cart update leaves the
displayed quantity and the stepper visibility untouched, and a
successful update displays exactly the confirmed quantity; but the
already-in-cart reconciliation pass unconditionally writes quantity 1
into the stepper, so right after reconciliation the display can differ
from the last backend-confirmed quantity. -/
theorem qty_display_amended :
    (∀ (s : QtyState) (q : Nat),
      (updateQtyCallback s q (some { exc := true })).inputValue = s.inputValue ∧
      (updateQtyCallback s q (some { exc := true })).wrapperHidden = s.wrapperHidden) ∧
    (∀ (s : QtyState) (q : Nat), s.wrapperPresent = true → q ≠ 0 →
      (updateQtyCallback s q (some { exc := false })).inputValue = q ∧
      (updateQtyCallback s q (some { exc := false })).lastConfirmed = some q) ∧
    (∀ s : QtyState, (indicatorSync s).inputValue = 1 ∧
      (indicatorSync s).lastConfirmed = s.lastConfirmed) := by
  refine ⟨?_, ?_, ?_⟩
  · intro s q
    simp [updateQtyCallback]
  · intro s q hw hq
    simp [updateQtyCallback, hw, hq]
  · intro s
    by_cases hw : s.wrapperPresent
    · simp [indicatorSync, renderQtyControls, hw]
    · simp [indicatorSync, renderQtyControls, hw]

theorem qty_display_amended_witness :
    (updateQtyCallback
        { wrapperPresent := true, wrapperHidden := false, inputValue := 1,
          addBtnHidden := true, lastConfirmed := some 1 } 2
        (some { exc := false })).inputValue = 2 ∧
    (updateQtyCallback
        { wrapperPresent := true, wrapperHidden := false, inputValue := 1,
          addBtnHidden := true, lastConfirmed := some 1 } 2
        (some { exc := false })).lastConfirmed = some 2 :=
  qty_display_amended.2.1 _ 2 rfl (by decide)



/-- C8 counterexample: `applyPriceFilter` with slider values 0 and 1000
serializes `field_filters` to an object whose `price_from` and
`price_to` entries are singleton arrays holding raw numbers, not
strings — contradicting the claim that every filter name maps to a
list of string values. -/
theorem price_filter_stringify_counterexample :
    applyPriceFilterVals (some 0) (some 1000) [] =
      [("price_from", [JVal.jnum 0]), ("price_to", [JVal.jnum 1000])] ∧
    ((applyPriceFilterVals (some 0) (some 1000) []).all fun kv => kv.2.all JVal.isStr) = false := by
  decide

/-- C8 amended: checkbox filters (offers_title, badges) are compared
and stored as strings — `toggleValue` reads the existing list through
`map(String)` and pushes the stringified value — but `applyPriceFilter`
stores raw numbers: for any prior state, numeric `price_from` and
`price_to` become singleton arrays holding the numbers themselves, and
absent/NaN values delete the keys; the price read path parses them back
with `parseFloat` rather than string comparison. -/
theorem price_filter_values_amended :
    (∀ (st : ValState) (q₁ q₂ : ℚ),
      lookupKey (applyPriceFilterVals (some q₁) (some q₂) st) "price_from" =
        some [JVal.jnum q₁] ∧
      lookupKey (applyPriceFilterVals (some q₁) (some q₂) st) "price_to" =
        some [JVal.jnum q₂]) ∧
    (∀ st : ValState,
      lookupKey (applyPriceFilterVals none none st) "price_from" = none ∧
      lookupKey (applyPriceFilterVals none none st) "price_to" = none) := by
  constructor
  · intro st q₁ q₂
    unfold applyPriceFilterVals
    constructor
    · rw [lookup_setKey_other _ _ _ _ (by decide), lookup_setKey_self]
    · rw [lookup_setKey_self]
  · intro st
    unfold applyPriceFilterVals
    constructor
    · rw [lookup_eraseKey_other _ _ _ (by decide), lookup_eraseKey_self]
    · rw [lookup_eraseKey_self]

/-- C10: the slider ceiling is 100000 when no numeric `to_amount` is
configured; otherwise it is the unique multiple of 1000 that is at
least the maximum configured `to_amount` and less than that maximum
plus 1000 — i.e. the maximum rounded up to the nearest thousand — and
in particular an upper bound for every configured `to_amount`. -/
theorem price_ceiling_spec (ranges : List PriceRange) :
    (ranges.filterMap (fun r => r.to_amount) = [] → computeMaxPrice ranges = 100000) ∧
    (∀ (v : ℚ) (vs : List ℚ), ranges.filterMap (fun r => r.to_amount) = v :: vs →
      (∃ k : ℤ, computeMaxPrice ranges = 1000 * (k : ℚ)) ∧
      vs.foldl max v ≤ computeMaxPrice ranges ∧
      computeMaxPrice ranges < vs.foldl max v + 1000 ∧
      ∀ x ∈ ranges.filterMap (fun r => r.to_amount), x ≤ computeMaxPrice ranges) := by
  constructor
  · intro h
    simp [computeMaxPrice, h]
  · intro v vs h
    have hM : computeMaxPrice ranges = 1000 * ((⌈(vs.foldl max v) / 1000⌉ : ℤ) : ℚ) := by
      simp [computeMaxPrice, h]
    have h1000 : (0 : ℚ) < 1000 := by norm_num
    have hge : vs.foldl max v ≤ computeMaxPrice ranges := by
      rw [hM]
      have hle := Int.le_ceil ((vs.foldl max v) / 1000)
      rw [div_le_iff₀ h1000] at hle
      linarith
    have hlt : computeMaxPrice ranges < vs.foldl max v + 1000 := by
      rw [hM]
      have hc := Int.ceil_lt_add_one ((vs.foldl max v) / 1000)
      have hmul : 1000 * ((⌈(vs.foldl max v) / 1000⌉ : ℤ) : ℚ) <
          1000 * ((vs.foldl max v) / 1000 + 1) := by
        exact (mul_lt_mul_left h1000).mpr hc
      have hdiv : 1000 * ((vs.foldl max v) / 1000 + 1) = vs.foldl max v + 1000 := by
        field_simp
      linarith
    refine ⟨⟨⌈(vs.foldl max v) / 1000⌉, hM⟩, hge, hlt, ?_⟩
    intro x hx
    rw [h] at hx
    exact le_trans (le_foldl_max v vs x hx) hge

theorem price_ceiling_spec_witness :
    computeMaxPrice [] = 100000 ∧
    (12100 : ℚ) ≤ computeMaxPrice [{ to_amount := some 12100 }] ∧
    computeMaxPrice [{ to_amount := some 12100 }] < 12100 + 1000 ∧
    (∃ k : ℤ, computeMaxPrice [{ to_amount := some 12100 }] = 1000 * (k : ℚ)) := by
  have h1 := (price_ceiling_spec []).1 rfl
  have h2 := (price_ceiling_spec [{ to_amount := some 12100 }]).2 12100 [] rfl
  exact ⟨h1, h2.2.1, h2.2.2.1, h2.1⟩

/-- C2: encoding a facet selection state writes the `field_filters`
parameter as the JSON object serialization (absent for the empty
mapping), and decoding that parameter parses it back to exactly the
same association list — same keys, same value lists — while an absent
parameter decodes to the empty mapping. -/
theorem field_filters_roundtrip (st : FacetState) (hkeys : (st.map Prod.fst).Nodup) :
    decodeFieldFilters (encodeFieldFilters st) = st ∧
    encodeFieldFilters [] = none ∧
    decodeFieldFilters none = [] := by
  refine ⟨?_, rfl, rfl⟩
  match st with
  | [] => rfl
  | m :: ms =>
    have h := parse_encodeObj (m :: ms) (by simp)
    simp [encodeFieldFilters, decodeFieldFilters, h]

theorem field_filters_roundtrip_witness :
    decodeFieldFilters (encodeFieldFilters [("badges", ["NEW", "SALE"])]) =
      [("badges", ["NEW", "SALE"])] :=
  (field_filters_roundtrip [("badges", ["NEW", "SALE"])] (by decide)).1



theorem toggleValue_true_eq (st : FacetState) (name v : String) :
    toggleValue st name v true =
      if (if v ∈ lookupList st name then lookupList st name
          else lookupList st name ++ [v]).isEmpty
      then eraseKey st name
      else setKey st name
        (if v ∈ lookupList st name then lookupList st name else lookupList st name ++ [v]) := rfl

theorem toggleValue_false_eq (st : FacetState) (name v : String) :
    toggleValue st name v false =
      if ((lookupList st name).filter (fun x => x ≠ v)).isEmpty
      then eraseKey st name
      else setKey st name ((lookupList st name).filter (fun x => x ≠ v)) := rfl

theorem isEmpty_false_of_ne {α : Type} (l : List α) (h : l ≠ []) : l.isEmpty = false := by
  cases l with
  | nil => exact absurd rfl h
  | cons a l => rfl

/-- C7 counterexample: on the state `{badges: ["NEW","SALE"]}`,
toggling `"NEW"` on is a no-op (already present) and toggling it off
then removes it, leaving `{badges: ["SALE"]}` — the key is still
present with a changed value set, so the discrepancy is not the
empty-key removal the claim's modulo clause allows. -/
theorem toggle_counterexample :
    toggleValue (toggleValue [("badges", ["NEW", "SALE"])] "badges" "NEW" true)
        "badges" "NEW" false = [("badges", ["SALE"])] ∧
    [("badges", ["SALE"])] ≠ [("badges", ["NEW", "SALE"])] ∧
    lookupKey (toggleValue (toggleValue [("badges", ["NEW", "SALE"])] "badges" "NEW" true)
        "badges" "NEW" false) "badges" = some ["SALE"] := by
  decide

/-- C7 amended: the on/off round trip restores the state only when the
value was absent beforehand (then it restores the original state, up to
removal of a pre-existing key whose value list was empty); separately,
toggling on is a no-op when the value is already present, toggling off
always removes the value from the stored list, and a list emptied by
toggling off has its key deleted. -/
theorem toggle_amended :
    (∀ (st : FacetState) (name v : String), v ∉ lookupList st name →
      toggleValue (toggleValue st name v true) name v false =
        if lookupList st name = [] then eraseKey st name else st) ∧
    (∀ (st : FacetState) (name v : String), v ∈ lookupList st name →
      toggleValue st name v true = st) ∧
    (∀ (st : FacetState) (name v : String),
      v ∉ lookupList (toggleValue st name v false) name) ∧
    (∀ (st : FacetState) (name v : String),
      (lookupList st name).filter (fun x => x ≠ v) = [] →
      lookupKey (toggleValue st name v false) name = none) := by
  have hfilter_self : ∀ (E : List String) (v : String), v ∉ E →
      E.filter (fun x => x ≠ v) = E := by
    intro E v hv
    refine List.filter_eq_self.mpr ?_
    intro a ha
    simp only [ne_eq, decide_eq_true_eq]
    rintro rfl
    exact hv ha
  have hlookup_of_ne : ∀ (st : FacetState) (name : String), lookupList st name ≠ [] →
      lookupKey st name = some (lookupList st name) := by
    intro st name hne
    unfold lookupList at hne ⊢
    match hl : lookupKey st name with
    | none => simp [hl] at hne
    | some l => simp
  refine ⟨?_, ?_, ?_, ?_⟩
  · intro st name v hv
    by_cases hE : lookupList st name = []
    · have hon : toggleValue st name v true = setKey st name [v] := by
        rw [toggleValue_true_eq, hE]
        simp [hv, hE]
      have hlk : lookupList (setKey st name [v]) name = [v] := by
        simp [lookupList, lookup_setKey_self]
      have hoff : toggleValue (setKey st name [v]) name v false =
          eraseKey (setKey st name [v]) name := by
        rw [toggleValue_false_eq, hlk]
        simp
      rw [hon, hoff, eraseKey_setKey, if_pos hE]
    · have hsome := hlookup_of_ne st name hE
      have hon : toggleValue st name v true = setKey st name (lookupList st name ++ [v]) := by
        rw [toggleValue_true_eq, if_neg hv]
        rw [isEmpty_false_of_ne _ (by simp)]
        rfl
      have hlk : lookupList (setKey st name (lookupList st name ++ [v])) name =
          lookupList st name ++ [v] := by
        simp [lookupList, lookup_setKey_self]
      have hfilt : (lookupList st name ++ [v]).filter (fun x => x ≠ v) = lookupList st name := by
        rw [List.filter_append, hfilter_self _ _ hv]
        simp
      have hoff : toggleValue (setKey st name (lookupList st name ++ [v])) name v false =
          setKey (setKey st name (lookupList st name ++ [v])) name (lookupList st name) := by
        rw [toggleValue_false_eq, hlk, hfilt, isEmpty_false_of_ne _ hE]
        rfl
      rw [hon, hoff, setKey_setKey, setKey_lookup_self st name _ hsome, if_neg hE]
  · intro st name v hv
    have hE : lookupList st name ≠ [] := by
      intro h
      rw [h] at hv
      exact absurd hv (List.not_mem_nil v)
    have hsome := hlookup_of_ne st name hE
    have hon : toggleValue st name v true = setKey st name (lookupList st name) := by
      rw [toggleValue_true_eq, if_pos hv, isEmpty_false_of_ne _ hE]
      rfl
    rw [hon, setKey_lookup_self st name _ hsome]
  · intro st name v
    by_cases hf : (lookupList st name).filter (fun x => x ≠ v) = []
    · have hoff : toggleValue st name v false = eraseKey st name := by
        rw [toggleValue_false_eq, hf]
        rfl
      rw [hoff]
      simp [lookupList, lookup_eraseKey_self]
    · have hoff : toggleValue st name v false =
          setKey st name ((lookupList st name).filter (fun x => x ≠ v)) := by
        rw [toggleValue_false_eq, isEmpty_false_of_ne _ hf]
        rfl
      rw [hoff]
      simp [lookupList, lookup_setKey_self]
  · intro st name v hf
    have hoff : toggleValue st name v false = eraseKey st name := by
      rw [toggleValue_false_eq, hf]
      rfl
    rw [hoff, lookup_eraseKey_self]

theorem toggle_amended_witness :
    toggleValue (toggleValue [("badges", ["NEW"])] "badges" "SALE" true)
        "badges" "SALE" false =
      if lookupList [("badges", ["NEW"])] "badges" = []
      then eraseKey [("badges", ["NEW"])] "badges" else [("badges", ["NEW"])] :=
  toggle_amended.1 [("badges", ["NEW"])] "badges" "SALE" (by decide)



theorem injectBody_flatten (bs : List Badge) (x : Dom) :
    List.Sublist (flattenS x) (flattenS (injectBody bs x)) := by
  by_cases hm : selClass "ce-badges" x
  · simp [injectBody, hm]
  · by_cases h1 : (insertAfterS (hasCls "product-title") (badgesContainer bs) x).2
    · have hred : injectBody bs x =
          (insertAfterS (hasCls "product-title") (badgesContainer bs) x).1 := by
        simp [injectBody, hm, h1]
      rw [hred]
      exact insertAfterS_flatten _ _ x
    · by_cases h2 : (insertAfterS isTitleTag (badgesContainer bs) x).2
      · have hred : injectBody bs x = (insertAfterS isTitleTag (badgesContainer bs) x).1 := by
          simp [injectBody, hm, h1, h2]
        rw [hred]
        exact insertAfterS_flatten _ _ x
      · have hred : injectBody bs x =
            .node x.tagOf x.classesOf (.cons (badgesContainer bs) x.childrenOf) := by
          simp [injectBody, hm, h1, h2]
        rw [hred]
        cases x with
        | node t cls ds =>
          simp only [Dom.tagOf, Dom.classesOf, Dom.childrenOf, flattenS, flattenF]
          exact (List.sublist_append_right _ _).cons₂ _

theorem injectOffers_flatten (offers : List Offer) (card : Dom) :
    List.Sublist (flattenS card) (flattenS (injectOffersCard offers card)) := by
  by_cases he : offers.isEmpty
  · simp [injectOffersCard, he]
  · by_cases hm : selClass "offer-container" card
    · simp [injectOffersCard, hm, he]
    · by_cases hr : (insertAfterS (hasCls "product-price") (offerWrapper offers) card).2
      · have hred : injectOffersCard offers card =
            (insertAfterS (hasCls "product-price") (offerWrapper offers) card).1 := by
          simp [injectOffersCard, he, hm, hr]
        rw [hred]
        exact insertAfterS_flatten _ _ card
      · simp [injectOffersCard, he, hm, hr]

theorem injectDiscount_flatten (q : Option ℚ) (card : Dom) :
    List.Sublist (flattenS card) (flattenS (injectDiscountCard q card)) := by
  match q with
  | none => simp [injectDiscountCard]
  | some v =>
    by_cases hv : v = 0
    · simp [injectDiscountCard, hv]
    · by_cases hp : selClass "product-price" card
      · by_cases hm : selClass "customer-discount-info" card
        · simp [injectDiscountCard, hv, hp, hm]
        · have hred : injectDiscountCard (some v) card =
              (insertAfterS (hasCls "product-price") discountInfoNode card).1 := by
            simp [injectDiscountCard, hv, hp, hm]
          rw [hred]
          exact insertAfterS_flatten _ _ card
      · simp [injectDiscountCard, hv, hp]

theorem injectBadges_flatten (bs : List Badge) (card : Dom) :
    List.Sublist (flattenS card) (flattenS (injectBadgesCard bs card)) := by
  by_cases hbs : bs.isEmpty
  · simp [injectBadgesCard, hbs]
  · by_cases hr : (mapFirstS (hasCls "card-body") (injectBody bs) card).2
    · have hred : injectBadgesCard bs card =
          (mapFirstS (hasCls "card-body") (injectBody bs) card).1 := by
        simp [injectBadgesCard, hbs, hr]
      rw [hred]
      exact mapFirstS_flatten _ _ (injectBody_flatten bs) card
    · have hred : injectBadgesCard bs card = injectBody bs card := by
        simp [injectBadgesCard, hbs, hr]
      rw [hred]
      exact injectBody_flatten bs card

/-- C1: for each annotation kind, the per-card injection is idempotent
(a second sync pass on the unchanged card finds the kind's marker class
and leaves the card exactly as the first pass left it), and one pass
adds at most one marker-carrying overlay node to a card — so two
successive sync passes over a card that starts without the marker leave
at most one overlay node of that kind under it. -/
theorem coordinator_sync_idempotent (offers : List Offer) (q : Option ℚ) (bs : List Badge)
    (card : Dom) :
    (injectOffersCard offers (injectOffersCard offers card) = injectOffersCard offers card ∧
      countNodeS (hasCls "offer-container") (injectOffersCard offers card) ≤
        countNodeS (hasCls "offer-container") card + 1 ∧
      (countNodeS (hasCls "offer-container") card = 0 →
        countNodeS (hasCls "offer-container")
          (injectOffersCard offers (injectOffersCard offers card)) ≤ 1)) ∧
    (injectDiscountCard q (injectDiscountCard q card) = injectDiscountCard q card ∧
      countNodeS (hasCls "customer-discount-info") (injectDiscountCard q card) ≤
        countNodeS (hasCls "customer-discount-info") card + 1 ∧
      (countNodeS (hasCls "customer-discount-info") card = 0 →
        countNodeS (hasCls "customer-discount-info")
          (injectDiscountCard q (injectDiscountCard q card)) ≤ 1)) ∧
    (injectBadgesCard bs (injectBadgesCard bs card) = injectBadgesCard bs card ∧
      countNodeS (hasCls "ce-badges") (injectBadgesCard bs card) ≤
        countNodeS (hasCls "ce-badges") card + 1 ∧
      (countNodeS (hasCls "ce-badges") card = 0 →
        countNodeS (hasCls "ce-badges")
          (injectBadgesCard bs (injectBadgesCard bs card)) ≤ 1)) := by
  refine ⟨⟨injectOffers_idem offers card, injectOffers_count offers card, ?_⟩,
    ⟨injectDiscount_idem q card, injectDiscount_count q card, ?_⟩,
    ⟨injectBadges_idem bs card, injectBadges_count bs card, ?_⟩⟩
  · intro h0
    rw [injectOffers_idem offers card]
    have := injectOffers_count offers card
    omega
  · intro h0
    rw [injectDiscount_idem q card]
    have := injectDiscount_count q card
    omega
  · intro h0
    rw [injectBadges_idem bs card]
    have := injectBadges_count bs card
    omega

theorem coordinator_sync_idempotent_witness :
    countNodeS (hasCls "offer-container")
      (injectOffersCard [sampleOffer] (injectOffersCard [sampleOffer] cardWithPrice)) ≤ 1 ∧
    countNodeS (hasCls "ce-badges")
      (injectBadgesCard [{ badge_type := "NEW" }]
        (injectBadgesCard [{ badge_type := "NEW" }] cardWithPrice)) ≤ 1 :=
  ⟨(coordinator_sync_idempotent [sampleOffer] none [] cardWithPrice).1.2.2 (by decide),
   (coordinator_sync_idempotent [] none [{ badge_type := "NEW" }] cardWithPrice).2.2.2.2
     (by decide)⟩

/-- C6 counterexample: on a card with no `.product-price` element the
offers pass returns without injecting anything at all — the overlay is
not appended to the card as the claim requires for the missing-anchor
case, and no overlay marker exists anywhere under the card afterwards. -/
theorem inject_no_anchor_counterexample :
    injectOffersCard [sampleOffer] cardNoPrice = cardNoPrice ∧
    selClass "offer-container" (injectOffersCard [sampleOffer] cardNoPrice) = false := by
  decide

/-- C6 amended: when the designated anchor is present the overlay is
inserted directly after it (first pre-order anchor match) — for offers
and discounts after the `.product-price` element, for badges after the
`.product-title` element or, when no `.product-title` exists, after the
first `a`/`h4`/`h5` element of the card body — and no externally owned
node is ever removed or reordered (the old pre-order node list is a
sublist of the new one, for every kind); but when no anchor is found
the behaviour is kind-specific and never "append to the card": offers
and discounts skip the card entirely, and badges prepend the container
at the top of the card body. -/
theorem inject_insertion_amended :
    (∀ (offers : List Offer) (card : Dom),
      selClass "product-price" card = false → injectOffersCard offers card = card) ∧
    (∀ (q : Option ℚ) (card : Dom),
      selClass "product-price" card = false → injectDiscountCard q card = card) ∧
    (∀ (bs : List Badge) (body : Dom),
      selClass "ce-badges" body = false →
      selClass "product-title" body = false →
      anyNodeF isTitleTag body.childrenOf = false →
      injectBody bs body =
        .node body.tagOf body.classesOf (.cons (badgesContainer bs) body.childrenOf)) ∧
    (∀ (offers : List Offer) (card : Dom),
      offers ≠ [] →
      selClass "offer-container" card = false →
      selClass "product-price" card = true →
      ∃ X anchor Y, hasCls "product-price" anchor = true ∧
        flattenS card = X ++ (flattenS anchor ++ Y) ∧
        flattenS (injectOffersCard offers card) =
          X ++ (flattenS anchor ++ (flattenS (offerWrapper offers) ++ Y))) ∧
    (∀ (v : ℚ) (card : Dom),
      v ≠ 0 →
      selClass "customer-discount-info" card = false →
      selClass "product-price" card = true →
      ∃ X anchor Y, hasCls "product-price" anchor = true ∧
        flattenS card = X ++ (flattenS anchor ++ Y) ∧
        flattenS (injectDiscountCard (some v) card) =
          X ++ (flattenS anchor ++ (flattenS discountInfoNode ++ Y))) ∧
    (∀ (bs : List Badge) (body : Dom),
      selClass "ce-badges" body = false →
      selClass "product-title" body = true →
      ∃ X anchor Y, hasCls "product-title" anchor = true ∧
        flattenS body = X ++ (flattenS anchor ++ Y) ∧
        flattenS (injectBody bs body) =
          X ++ (flattenS anchor ++ (flattenS (badgesContainer bs) ++ Y))) ∧
    (∀ (bs : List Badge) (body : Dom),
      selClass "ce-badges" body = false →
      selClass "product-title" body = false →
      anyNodeF isTitleTag body.childrenOf = true →
      ∃ X anchor Y, isTitleTag anchor = true ∧
        flattenS body = X ++ (flattenS anchor ++ Y) ∧
        flattenS (injectBody bs body) =
          X ++ (flattenS anchor ++ (flattenS (badgesContainer bs) ++ Y))) ∧
    (∀ (offers : List Offer) (q : Option ℚ) (bs : List Badge) (card : Dom),
      List.Sublist (flattenS card) (flattenS (injectOffersCard offers card)) ∧
      List.Sublist (flattenS card) (flattenS (injectDiscountCard q card)) ∧
      List.Sublist (flattenS card) (flattenS (injectBadgesCard bs card))) := by
  refine ⟨?_, ?_, ?_, ?_, ?_, ?_, ?_, ?_⟩
  · intro offers card hp
    have hflag : (insertAfterS (hasCls "product-price") (offerWrapper offers) card).2 = false := by
      rw [insertAfterS_flag]
      exact hp
    by_cases he : offers.isEmpty
    · simp [injectOffersCard, he]
    · by_cases hm : selClass "offer-container" card
      · simp [injectOffersCard, he, hm]
      · simp [injectOffersCard, he, hm, hflag]
  · intro q card hp
    match q with
    | none => rfl
    | some v =>
      by_cases hv : v = 0
      · simp [injectDiscountCard, hv]
      · simp [injectDiscountCard, hv, hp]
  · intro bs body hm ht htag
    have h1 : (insertAfterS (hasCls "product-title") (badgesContainer bs) body).2 = false := by
      rw [insertAfterS_flag]
      exact ht
    have h2 : (insertAfterS isTitleTag (badgesContainer bs) body).2 = false := by
      rw [insertAfterS_flag]
      exact htag
    simp [injectBody, hm, h1, h2]
  · intro offers card hne hm hp
    have hflag : (insertAfterS (hasCls "product-price") (offerWrapper offers) card).2 = true := by
      rw [insertAfterS_flag]
      exact hp
    have hred : injectOffersCard offers card =
        (insertAfterS (hasCls "product-price") (offerWrapper offers) card).1 := by
      simp [injectOffersCard, List.isEmpty_iff, hne, hm, hflag]
    rw [hred]
    exact insertAfterS_flatten_pos _ _ card hflag
  · intro v card hv hm hp
    have hflag : (insertAfterS (hasCls "product-price") discountInfoNode card).2 = true := by
      rw [insertAfterS_flag]
      exact hp
    have hred : injectDiscountCard (some v) card =
        (insertAfterS (hasCls "product-price") discountInfoNode card).1 := by
      simp [injectDiscountCard, hv, hp, hm]
    rw [hred]
    exact insertAfterS_flatten_pos _ _ card hflag
  · intro bs body hm ht
    have h1 : (insertAfterS (hasCls "product-title") (badgesContainer bs) body).2 = true := by
      rw [insertAfterS_flag]
      exact ht
    have hred : injectBody bs body =
        (insertAfterS (hasCls "product-title") (badgesContainer bs) body).1 := by
      simp [injectBody, hm, h1]
    rw [hred]
    exact insertAfterS_flatten_pos _ _ body h1
  · intro bs body hm ht htag
    have h1 : (insertAfterS (hasCls "product-title") (badgesContainer bs) body).2 = false := by
      rw [insertAfterS_flag]
      exact ht
    have h2 : (insertAfterS isTitleTag (badgesContainer bs) body).2 = true := by
      rw [insertAfterS_flag]
      exact htag
    have hred : injectBody bs body = (insertAfterS isTitleTag (badgesContainer bs) body).1 := by
      simp [injectBody, hm, h1, h2]
    rw [hred]
    exact insertAfterS_flatten_pos _ _ body h2
  · intro offers q bs card
    exact ⟨injectOffers_flatten offers card, injectDiscount_flatten q card,
      injectBadges_flatten bs card⟩

theorem inject_insertion_amended_witness :
    injectOffersCard [sampleOffer] cardNoPrice = cardNoPrice ∧
    injectDiscountCard (some 10) cardNoPrice = cardNoPrice ∧
    (∃ X anchor Y, hasCls "product-price" anchor = true ∧
      flattenS cardWithPrice = X ++ (flattenS anchor ++ Y) ∧
      flattenS (injectDiscountCard (some 10) cardWithPrice) =
        X ++ (flattenS anchor ++ (flattenS discountInfoNode ++ Y))) ∧
    (∃ X anchor Y, hasCls "product-title" anchor = true ∧
      flattenS cardWithPrice = X ++ (flattenS anchor ++ Y) ∧
      flattenS (injectBody [{ badge_type := "NEW" }] cardWithPrice) =
        X ++ (flattenS anchor ++ (flattenS (badgesContainer [{ badge_type := "NEW" }]) ++ Y))) :=
  ⟨inject_insertion_amended.1 [sampleOffer] cardNoPrice (by decide),
   inject_insertion_amended.2.1 (some 10) cardNoPrice (by decide),
   inject_insertion_amended.2.2.2.2.1 10 cardWithPrice (by norm_num) (by decide) (by decide),
   inject_insertion_amended.2.2.2.2.2.1 [{ badge_type := "NEW" }] cardWithPrice
     (by decide) (by decide)⟩


end CatalogExt
